import Mathlib

/-!
# Verification of the Pecos quality-control monitoring engine

Shallow embedding of `pecos/monitoring.py` (class `PerformanceMonitoring`) and
proofs about its behaviour.  Timestamps are modelled as natural numbers
(seconds), data values as `Option ℚ` (`none` = NaN / missing), DataFrames as a
datetime index together with named columns, and the engine state as a record
holding the dataset, the translation registry, the time filter and the
accumulated test-result list.
-/

namespace Pecos

/-- One row of the `test_results` DataFrame: a failure interval
`{Variable Name, Start Time, End Time, Timesteps, Error Flag}`. -/
structure TestResult where
  varName : String
  startTime : Nat
  endTime : Nat
  timesteps : Nat
  errorFlag : String
  deriving DecidableEq, Repr

/-- A boolean pass/fail grid (a pandas DataFrame of booleans): a datetime
index, column names, and one boolean list per column (True = pass). -/
structure Grid where
  index : List Nat
  colNames : List String
  cols : List (List Bool)
  deriving DecidableEq, Repr

/-- A data table (pandas DataFrame): datetime index, column names and one
value list per column.  `none` models NaN. -/
structure DataFrame where
  index : List Nat
  colNames : List String
  cols : List (List (Option ℚ))
  deriving DecidableEq, Repr

/-- The `PerformanceMonitoring` engine state: dataset `df`, translation
registry `trans` (an insertion-ordered dictionary), time filter `tfilter`
(`none` models the empty series) and the accumulated result list. -/
structure PM where
  df : DataFrame
  trans : List (String × List String)
  tfilter : Option (List Bool)
  test_results : List TestResult
  deriving DecidableEq, Repr

/-- `PerformanceMonitoring.__init__`: empty dataset, empty registry, empty
time filter, empty result list. -/
def PM.init : PM :=
  { df := { index := [], colNames := [], cols := [] }
    trans := []
    tfilter := none
    test_results := [] }

/-! ## Interval extractor (`_append_test_results`)

The source builds, per column, a "start" transition mask
`hstack(np_mask[:,0], np_mask[:,1:] & ~np_mask[:,:-1])` and a "stop" mask
`hstack(np_mask[:,:-1] & ~np_mask[:,1:], np_mask[:,-1])` over the negated
(fail = True) mask, collects the True positions of each with `np.where`
(row-major, so per column in order) and zips starts with stops. -/

/-- Start-transition mask over the fail list: position `j` is True when the
cell fails and its predecessor does not (`prev` carries the previous cell,
seeded with False so that position 0 is the cell itself, exactly as the
`hstack` with the first column does). -/
def smGo : Bool → List Bool → List Bool
  | _, [] => []
  | prev, b :: rest => (b && !prev) :: smGo b rest

/-- Stop-transition mask over the fail list: position `j` is True when the
cell fails and its successor does not (the last position compares against
False, exactly as the `hstack` with the last column does). -/
def tmGo : List Bool → List Bool
  | [] => []
  | b :: rest => (b && !(rest.headD false)) :: tmGo rest

/-- Positions holding `true`, starting the numbering at `p` (`np.where`). -/
def trueIdxs : List Bool → Nat → List Nat
  | [], _ => []
  | b :: rest, p => if b then p :: trueIdxs rest (p + 1) else trueIdxs rest (p + 1)

/-- The per-column failure blocks, as (start row, stop row) pairs: the i-th
start position is paired with the i-th stop position. -/
def colBlocks (fails : List Bool) : List (Nat × Nat) :=
  (trueIdxs (smGo false fails) 0).zip (trueIdxs (tmGo fails) 0)

/-- Reference recursion computing the maximal runs of `true` in a fail list
as (start, stop) pairs, numbering positions from `p`; `st = some s` records
an open run started at absolute position `s`.  Proved equal to `colBlocks`
below and used to reason about the transition-mask extraction. -/
def runsLA : List Bool → Nat → Option Nat → List (Nat × Nat)
  | [], _, _ => []
  | b :: rest, p, st =>
    if b then
      let s := st.getD p
      if rest.headD false then runsLA rest (p + 1) (some s)
      else (s, p) :: runsLA rest (p + 1) none
    else runsLA rest (p + 1) none

/-- Number of leading `true` entries of a fail list. -/
def leadT : List Bool → Nat
  | [] => 0
  | b :: rest => if b then leadT rest + 1 else 0

/-- `(s, e)` delimits a maximal contiguous run of `true` (= failing) cells in
the fail list `f`: every position in `[s, e]` fails, the position before `s`
(when any) passes, and the position after `e` (when any) passes. -/
def isMaxRun (f : List Bool) (s e : Nat) : Prop :=
  s ≤ e ∧ e < f.length ∧
  (∀ j, s ≤ j → j ≤ e → f.getD j false = true) ∧
  (s = 0 ∨ f.getD (s - 1) false = false) ∧
  (e + 1 = f.length ∨ f.getD (e + 1) false = false)

/-- Shape discipline of a grid: one boolean column per name, every column as
long as the index. -/
def Grid.WF (g : Grid) : Prop :=
  g.cols.length = g.colNames.length ∧ ∀ c ∈ g.cols, c.length = g.index.length

/-- Shape discipline of a data table: one value column per name, every
column as long as the index. -/
def DataFrame.WF (df : DataFrame) : Prop :=
  df.cols.length = df.colNames.length ∧ ∀ c ∈ df.cols, c.length = df.index.length

/-- The results extracted from one mask column (True = pass): each block of
`min_failures` or more consecutive failures becomes one `TestResult` with
`timesteps = stop - start + 1` and start/end timestamps read off the index. -/
def colResults (idx : List Nat) (name : String) (colMask : List Bool)
    (msg : String) (m : Nat) : List TestResult :=
  (colBlocks (colMask.map not)).filterMap (fun se =>
    if m ≤ se.2 - se.1 + 1 then
      some { varName := name
             startTime := idx.getD se.1 0
             endTime := idx.getD se.2 0
             timesteps := se.2 - se.1 + 1
             errorFlag := msg }
    else none)

/-- `mask[~self.tfilter] = True`: rows excluded by the time filter are forced
to pass in every column.  `none` models the empty filter (no-op). -/
def applyTFilter (tf : Option (List Bool)) (g : Grid) : Grid :=
  match tf with
  | none => g
  | some tfl =>
    { g with cols := g.cols.map (fun c =>
        c.mapIdx (fun i b => if tfl.getD i true then b else true)) }

/-- `mask.sum(axis=1).sum(axis=0) == mask.shape[0]*mask.shape[1]`: the total
count of True cells equals rows times columns. -/
def allPass (g : Grid) : Bool :=
  (g.cols.map (fun c => c.count true)).sum == g.index.length * g.cols.length

/-- The full list of results extracted from a grid, per column in order; with
`timestamp_test = True` the variable name is the empty string. -/
def newResults (g : Grid) (msg : String) (m : Nat) (tsTest : Bool) : List TestResult :=
  let names := if tsTest then g.colNames.map (fun _ => "") else g.colNames
  (names.zip g.cols).flatMap (fun nc => colResults g.index nc.1 nc.2 msg m)

/-- `PerformanceMonitoring._append_test_results`: force excluded rows to pass,
return unchanged when every cell passes, otherwise append the extracted
failure intervals to `test_results`. -/
def appendTestResults (pm : PM) (g0 : Grid) (msg : String) (m : Nat)
    (tsTest : Bool) : PM :=
  let g := applyTFilter pm.tfilter g0
  if allPass g then pm
  else { pm with test_results := pm.test_results ++ newResults g msg m tsTest }

/-! ## Data setup and bound tests -/

/-- Lookup in the translation registry (a Python dict modelled as an
association list written by `transUpsert`). -/
def lookupTrans (tr : List (String × List String)) (k : String) : Option (List String) :=
  (tr.find? (fun p => p.1 == k)).map (fun p => p.2)

/-- `trans[key] = values`: overwrite an existing entry or append a new one. -/
def transUpsert (tr : List (String × List String)) (k : String)
    (v : List String) : List (String × List String) :=
  if tr.any (fun p => p.1 == k) then
    tr.map (fun p => if p.1 == k then (k, v) else p)
  else tr ++ [(k, v)]

/-- The column of `df` named `n` (first match), `[]` when absent. -/
def colOf (df : DataFrame) (n : String) : List (Option ℚ) :=
  match df.colNames.findIdx? (fun c => c == n) with
  | some i => df.cols.getD i []
  | none => []

/-- `PerformanceMonitoring._setup_data`: `None` when the dataset is empty;
with a key, resolve it through the translation registry and select those
columns (a missing key or a missing column raises `KeyError`, which the
source catches, logs and turns into `None`); without a key, the whole
dataset. -/
def setupData (pm : PM) (key : Option String) : Option DataFrame :=
  if pm.df.index = [] ∨ pm.df.colNames = [] then none
  else
    match key with
    | none => some pm.df
    | some k =>
      match lookupTrans pm.trans k with
      | none => none
      | some names =>
        if names.all (fun n => pm.df.colNames.contains n) then
          some { index := pm.df.index
                 colNames := names
                 cols := names.map (colOf pm.df) }
        else none

/-- `df < bound[0]` on a cell: comparisons with NaN are False. -/
def ltBnd : Option ℚ → ℚ → Bool
  | none, _ => false
  | some v, b => decide (v < b)

/-- `df > bound[1]` on a cell: comparisons with NaN are False. -/
def gtBnd : Option ℚ → ℚ → Bool
  | none, _ => false
  | some v, b => decide (v > b)

/-- Turn a data table into a pass/fail grid by a per-cell predicate. -/
def maskOfGrid (df : DataFrame) (p : Option ℚ → Bool) : Grid :=
  { index := df.index, colNames := df.colNames
    cols := df.cols.map (fun c => c.map p) }

/-- `PerformanceMonitoring._generate_test_results`: for an enabled lower
bound append the results of `~(df < lower)`, then for an enabled upper bound
the results of `~(df > upper)`. -/
def generateTestResults (pm : PM) (df : DataFrame) (lower upper : Option ℚ)
    (m : Nat) (pre : String) : PM :=
  let pm1 := match lower with
    | none => pm
    | some lo =>
      appendTestResults pm (maskOfGrid df (fun v => !(ltBnd v lo)))
        (pre ++ " < lower bound, " ++ toString lo) m false
  match upper with
  | none => pm1
  | some hi =>
    appendTestResults pm1 (maskOfGrid df (fun v => !(gtBnd v hi)))
      (pre ++ " > upper bound, " ++ toString hi) m false

/-- `PerformanceMonitoring.check_range`. -/
def checkRange (pm : PM) (lower upper : Option ℚ) (key : Option String)
    (m : Nat) : PM :=
  match setupData pm key with
  | none => pm
  | some df => generateTestResults pm df lower upper m "Data"

/-- `df.diff(periods=k)` on one column, with optional `np.abs`: value minus
the value `k` steps earlier, NaN when either operand is missing or the row
has no `k`-th predecessor. -/
def diffCol (c : List (Option ℚ)) (k : Nat) (absV : Bool) : List (Option ℚ) :=
  c.mapIdx (fun i _ =>
    if i < k then none
    else
      match c.getD i none, c.getD (i - k) none with
      | some x, some y => some (if absV then |x - y| else x - y)
      | _, _ => none)

/-- `PerformanceMonitoring.check_increment`.  When every cell of the selected
data is null the source evaluates `"Check increment range failed (all data is
Null): " + key`; with `key=None` that string concatenation raises `TypeError`
into the caller, which the `Except.error` branch records. -/
def checkIncrement (pm : PM) (lower upper : Option ℚ) (key : Option String)
    (k : Nat) (absV : Bool) (m : Nat) : Except String PM :=
  match setupData pm key with
  | none => .ok pm
  | some df =>
    if df.cols.all (fun c => c.all (fun v => v.isNone)) then
      match key with
      | none => .error "TypeError: can only concatenate str (not NoneType) to str"
      | some _ => .ok pm
    else
      .ok (generateTestResults pm
        { df with cols := df.cols.map (fun c => diffCol c k absV) }
        lower upper m (if absV then "|Increment|" else "Increment"))

/-! ## Missing and corrupt data tests -/

/-- `mask.loc[a:b] = True` on a grid: every row whose timestamp lies in the
label range `[a, b]` is forced to pass in every column. -/
def forceRangeTrue (g : Grid) (a b : Nat) : Grid :=
  { g with cols := g.cols.map (fun c =>
      c.mapIdx (fun i v =>
        if a ≤ g.index.getD i 0 ∧ g.index.getD i 0 ≤ b then true else v)) }

/-- `PerformanceMonitoring.check_missing`: pass = value present; rows already
flagged as `Missing timestamp` are forced to pass before extraction. -/
def checkMissing (pm : PM) (key : Option String) (m : Nat) : PM :=
  match setupData pm key with
  | none => pm
  | some df =>
    let g0 : Grid :=
      { index := df.index, colNames := df.colNames
        cols := df.cols.map (fun c => c.map (fun v => v.isSome)) }
    let mts := pm.test_results.filter (fun r => r.errorFlag == "Missing timestamp")
    let g := mts.foldl (fun g r => forceRangeTrue g r.startTime r.endTime) g0
    appendTestResults pm g "Missing data" m false

/-- `df.isin(corrupt_values)` on one cell; NaN is never a member. -/
def isinB (v : Option ℚ) (cv : List ℚ) : Bool :=
  match v with
  | none => false
  | some x => cv.contains x

/-- `self.df[~mask] = np.nan`: null every cell of `base` whose column carries
a mask column (matched by name) with a False entry at that row. -/
def nullifyDF (base : DataFrame) (g : Grid) : DataFrame :=
  let f := fun (n : String) (c : List (Option ℚ)) =>
    match g.colNames.findIdx? (fun x => x == n) with
    | none => c
    | some k => c.mapIdx (fun i v =>
        if (g.cols.getD k []).getD i true then v else none)
  { base with cols := List.zipWith f base.colNames base.cols }

/-- The pass/fail grid of `check_corrupt`: `~df.isin(corrupt_values)`. -/
def corruptGrid (df : DataFrame) (cv : List ℚ) : Grid :=
  { index := df.index, colNames := df.colNames
    cols := df.cols.map (fun c => c.map (fun v => !(isinB v cv))) }

/-- `PerformanceMonitoring.check_corrupt`: pass = value not in the corrupt
list; failing cells are nulled in the dataset before the results are
appended. -/
def checkCorrupt (pm : PM) (cv : List ℚ) (key : Option String) (m : Nat) : PM :=
  match setupData pm key with
  | none => pm
  | some df =>
    let g : Grid := corruptGrid df cv
    appendTestResults { pm with df := nullifyDF pm.df g } g "Corrupt data" m false

/-! ## `add_dataframe` -/

/-- Insertion sort (ascending) of the index labels. -/
def insNat (x : Nat) : List Nat → List Nat
  | [] => [x]
  | y :: r => if y ≤ x then y :: insNat x r else x :: y :: r

/-- Sorted union of two index label lists (`Index.union` sorts). -/
def sortedNatUnion (a b : List Nat) : List Nat :=
  ((a ++ b).foldl (fun acc x => insNat x acc) []).dedup

/-- Lexicographic comparison of character lists by code point (the order of
`Index.union` on string columns), written recursively so that it evaluates
inside the kernel. -/
def charListLt : List Char → List Char → Bool
  | [], [] => false
  | [], _ :: _ => true
  | _ :: _, [] => false
  | a :: as, b :: bs =>
    if a.toNat < b.toNat then true
    else if b.toNat < a.toNat then false
    else charListLt as bs

/-- Lexicographic comparison of strings by code point. -/
def strLtB (a b : String) : Bool := charListLt a.toList b.toList

/-- Insertion sort (ascending) of column names. -/
def insStr (x : String) : List String → List String
  | [] => [x]
  | y :: r => if strLtB x y then x :: y :: r else y :: insStr x r

/-- Sorted union of two column-name lists (`Index.union` sorts). -/
def sortedStrUnion (a b : List String) : List String :=
  ((a ++ b).foldl (fun acc x => insStr x acc) []).dedup

/-- The value of `df` at row label `t` and column label `c`; `none` when the
row or column is absent or the stored value is NaN. -/
def cellAt (df : DataFrame) (t : Nat) (c : String) : Option ℚ :=
  match df.colNames.findIdx? (fun x => x == c), df.index.findIdx? (fun x => x == t) with
  | some ci, some ri => (df.cols.getD ci []).getD ri none
  | _, _ => none

/-- `a.combine_first(b)`: union of indexes and columns (both sorted), each
cell taking `a`'s value when present and non-null, otherwise `b`'s. -/
def combineFirst (a b : DataFrame) : DataFrame :=
  let idx := sortedNatUnion a.index b.index
  let names := sortedStrUnion a.colNames b.colNames
  { index := idx
    colNames := names
    cols := names.map (fun n => idx.map (fun t => (cellAt a t n).or (cellAt b t n))) }

/-- `PerformanceMonitoring.add_dataframe`: `self.df = data.combine_first(self.df)`
followed by registering the identity translation entry for every column of
the new data. -/
def addDataframe (pm : PM) (d : DataFrame) : PM :=
  { pm with
    df := combineFirst d pm.df
    trans := d.colNames.foldl (fun tr c => transUpsert tr c [c]) pm.trans }

/-! ## Timestamp integrity test (`check_timestamp`, `exact_times=True`) -/

/-- `pd.Series(index).diff() < 0` reversed: the non-monotonic mask.  The
first position is True (NaT comparison), and `mask[mask.index[0]] = True`
afterwards forces every row whose label equals the first label to True
(a scalar label assignment hits all duplicate occurrences). -/
def monoBaseMask (idx : List Nat) : List Bool :=
  idx.mapIdx (fun i t =>
    if t = idx.getD 0 0 then true
    else if i = 0 then true
    else decide (¬ t < idx.getD (i - 1) 0))

/-- `pd.Series(index).diff() == 0` reversed: the duplicate mask.  The first
position is True, and `mask[mask.index[0]] = True` forces every row whose
label equals the first label to True. -/
def dupBaseMask (idx : List Nat) : List Bool :=
  idx.mapIdx (fun i t =>
    if t = idx.getD 0 0 then true
    else if i = 0 then true
    else decide (¬ t = idx.getD (i - 1) 0))

/-- `drop_duplicates(subset='TEMP', keep='last')` on (timestamp, flag) rows:
keep a row only when no later row carries the same timestamp, preserving
order. -/
def keepLastRows : List (Nat × Bool) → List (Nat × Bool)
  | [] => []
  | r :: rest =>
    if rest.any (fun q => q.1 == r.1) then keepLastRows rest
    else r :: keepLastRows rest

/-- Positions kept by `drop_duplicates(keep='first')` on the index. -/
def keepFirstPos (idx : List Nat) : List Nat :=
  (List.range idx.length).filter (fun i => !((idx.take i).contains (idx.getD i 0)))

/-- `self.df.drop_duplicates(subset='TEMP', keep='first')`: keep the first
row of each repeated timestamp. -/
def dedupFirstDF (df : DataFrame) : DataFrame :=
  { index := (keepFirstPos df.index).map (fun i => df.index.getD i 0)
    colNames := df.colNames
    cols := df.cols.map (fun c => (keepFirstPos df.index).map (fun i => c.getD i none)) }

/-- `Index.is_monotonic`: non-strictly increasing. -/
def idxIsMono : List Nat → Bool
  | [] => true
  | [_] => true
  | a :: b :: r => a ≤ b && idxIsMono (b :: r)

/-- The rows of a DataFrame, as (timestamp, row values) pairs. -/
def dfRows (df : DataFrame) : List (Nat × List (Option ℚ)) :=
  df.index.mapIdx (fun i t => (t, df.cols.map (fun c => c.getD i none)))

/-- Stable insertion of a row into a row list sorted by timestamp (the
inserted row lands after rows with an equal timestamp). -/
def insRow (x : Nat × List (Option ℚ)) :
    List (Nat × List (Option ℚ)) → List (Nat × List (Option ℚ))
  | [] => [x]
  | y :: r => if y.1 ≤ x.1 then y :: insRow x r else x :: y :: r

/-- `self.df.sort_index()`: stable sort of the rows by timestamp. -/
def sortDF (df : DataFrame) : DataFrame :=
  let rows := (dfRows df).foldl (fun acc r => insRow r acc) []
  { index := rows.map Prod.fst
    colNames := df.colNames
    cols := (List.range df.cols.length).map (fun cj =>
      rows.map (fun r => r.2.getD cj none)) }

/-- `pd.date_range(start, end, freq)`: the regular grid `a, a+f, ...` of
timestamps not exceeding `b` (claims use `1 ≤ f`). -/
def gridRange (a b f : Nat) : List Nat :=
  (List.range ((b - a) / f + 1)).map (fun k => a + k * f)

/-- `self.df.reindex(index=rng)`: rows for exactly the labels of `rng`,
taking values from the (now duplicate-free) frame where the label exists and
all-null rows elsewhere. -/
def reindexDF (df : DataFrame) (rng : List Nat) : DataFrame :=
  { index := rng
    colNames := df.colNames
    cols := df.cols.map (fun c => rng.map (fun t =>
      match df.index.findIdx? (fun x => x == t) with
      | some i => c.getD i none
      | none => none)) }

/-- `PerformanceMonitoring.check_timestamp` with default expected start/end
and `exact_times=True`: non-monotonic check on the raw index, sort when
needed, duplicate check with keep-last representatives, drop duplicate rows
keeping the first, then the missing-timestamp check against the regular grid
after reindexing. -/
def checkTimestamp (pm : PM) (freq : Nat) (m : Nat) : PM :=
  if pm.df.index = [] ∨ pm.df.colNames = [] then pm
  else
    let idx0 := pm.df.index
    let startT := idx0.foldl Nat.min (idx0.headD 0)
    let endT := idx0.foldl Nat.max (idx0.headD 0)
    let rng := gridRange startT endT freq
    let pm1 := appendTestResults pm
      { index := idx0, colNames := ["0"], cols := [monoBaseMask idx0] }
      "Nonmonotonic timestamp" m true
    let df1 := if idxIsMono idx0 then pm1.df else sortDF pm1.df
    let kept := keepLastRows (df1.index.zip (dupBaseMask df1.index))
    let df2 := dedupFirstDF df1
    let pm2 := { pm1 with df := df2 }
    let pm3 := appendTestResults pm2
      { index := kept.map Prod.fst, colNames := ["0"], cols := [kept.map Prod.snd] }
      "Duplicate timestamp" m true
    let missing := rng.filter (fun t => !(df2.index.contains t))
    let pm4 := { pm3 with df := reindexDF df2 rng }
    let mmask := rng.map (fun t => !(missing.contains t))
    appendTestResults pm4
      { index := rng, colNames := ["0"], cols := [mmask] }
      "Missing timestamp" m true

/-! ## Rolling delta test (`check_delta`) -/

/-- The observations of a trailing rolling window closed on both ends:
values at rows `j ≤ i` whose timestamp is at least `ts_i - w`, NaN skipped
(pandas rolling statistics skip NaN and `min_periods` counts
observations). -/
def rollObs (idx : List Nat) (c : List (Option ℚ)) (w i : Nat) : List ℚ :=
  (List.range (i + 1)).filterMap (fun j =>
    if idx.getD i 0 - w ≤ idx.getD j 0 then c.getD j none else none)

/-- Fold minimum of a rational list (meaningful for non-empty input). -/
def listMin (l : List ℚ) : ℚ := l.foldl min (l.headD 0)

/-- Fold maximum of a rational list (meaningful for non-empty input). -/
def listMax (l : List ℚ) : ℚ := l.foldl max (l.headD 0)

/-- `rolling(w, min_periods=2, closed='both').max() - ....min()` on one
column: NaN with fewer than two observations in the window. -/
def deltaCol (idx : List Nat) (c : List (Option ℚ)) (w : Nat) : List (Option ℚ) :=
  (List.range idx.length).map (fun i =>
    let obs := rollObs idx c w i
    if obs.length < 2 then none else some (listMax obs - listMin obs))

/-- `diff_df.loc[index[0] : index[0] + window] = None`: rows whose timestamp
is within `window` of the first timestamp (inclusive label slice) are set to
NaN. -/
def firstWindowNone (idx : List Nat) (dcol : List (Option ℚ)) (w : Nat) :
    List (Option ℚ) :=
  dcol.mapIdx (fun i v => if idx.getD i 0 ≤ idx.getD 0 0 + w then none else v)

/-- The per-column delta values handed to the bound comparisons. -/
def deltaGrid (df : DataFrame) (w : Nat) : List (List (Option ℚ)) :=
  df.cols.map (fun c => firstWindowNone df.index (deltaCol df.index c w) w)

/-- `df.loc[t1:t, col].idxmin()`: timestamp of the first occurrence of the
window minimum, NaN skipped; `none` when the window holds no observation. -/
def idxMinW (idx : List Nat) (c : List (Option ℚ)) (a b : Nat) : Option Nat :=
  ((List.range idx.length).foldl (fun acc j =>
    if a ≤ idx.getD j 0 ∧ idx.getD j 0 ≤ b then
      match c.getD j none with
      | none => acc
      | some v =>
        match acc with
        | none => some (idx.getD j 0, v)
        | some tv => if v < tv.2 then some (idx.getD j 0, v) else acc
    else acc) none).map Prod.fst

/-- `df.loc[t1:t, col].idxmax()`: timestamp of the first occurrence of the
window maximum, NaN skipped. -/
def idxMaxW (idx : List Nat) (c : List (Option ℚ)) (a b : Nat) : Option Nat :=
  ((List.range idx.length).foldl (fun acc j =>
    if a ≤ idx.getD j 0 ∧ idx.getD j 0 ≤ b then
      match c.getD j none with
      | none => acc
      | some v =>
        match acc with
        | none => some (idx.getD j 0, v)
        | some tv => if tv.2 < v then some (idx.getD j 0, v) else acc
    else acc) none).map Prod.fst

/-- Float comparisons between possibly-NaN idxmin/idxmax results: any
comparison with NaN is False. -/
def ltO : Option Nat → Option Nat → Bool
  | some a, some b => decide (a < b)
  | _, _ => false

/-- `min_time <= max_time` with NaN-is-False semantics. -/
def leO : Option Nat → Option Nat → Bool
  | some a, some b => decide (a ≤ b)
  | _, _ => false

/-- `min_time == max_time` with NaN-is-False semantics. -/
def eqO : Option Nat → Option Nat → Bool
  | some a, some b => a == b
  | _, _ => false

/-- Membership of a timestamp in the closed label range `[a, b]` given by two
possibly-NaN bounds. -/
def btwO (a b : Option Nat) (s : Nat) : Bool :=
  match a, b with
  | some x, some y => decide (x ≤ s ∧ s ≤ y)
  | _, _ => false

/-- The `'lower'` / `'upper'` string argument of `update_mask`. -/
inductive BndKind
  | lower
  | upper
  deriving DecidableEq, Repr

/-- The `direction` argument: `'positive'` or `'negative'` (`Option Dir`
models `None`). -/
inductive Dir
  | pos
  | neg
  deriving DecidableEq, Repr

/-- Write `v` into column `ci` at every row whose timestamp satisfies `p`. -/
def setColIf (cols2 : List (List Bool)) (ci : Nat) (idx : List Nat)
    (p : Nat → Bool) (v : Bool) : List (List Bool) :=
  cols2.mapIdx (fun cj col =>
    if cj = ci then col.mapIdx (fun i b => if p (idx.getD i 0) then v else b)
    else col)

/-- Write `v` into the single cell (row `ri`, column `ci`). -/
def setCellB (cols2 : List (List Bool)) (ci ri : Nat) (v : Bool) :
    List (List Bool) :=
  cols2.mapIdx (fun cj col =>
    if cj = ci then col.mapIdx (fun i b => if i = ri then v else b) else col)

/-- The flagged cells `mask1[mask1 == 0].stack().index` in row-major order,
as (row, column) position pairs. -/
def flaggedCells (g : Grid) : List (Nat × Nat) :=
  (List.range g.index.length).flatMap (fun i =>
    (List.range g.cols.length).filterMap (fun cj =>
      if (g.cols.getD cj []).getD i true then none else some (i, cj)))

/-- One iteration of the `update_mask` loop of `check_delta`, expanding the
flagged point `(row, column)` to the span that produced it. -/
def deltaStep (df : DataFrame) (w : Nat) (bk : BndKind) (dir : Option Dir)
    (idx : List Nat) (cols2 : List (List Bool)) (pt : Nat × Nat) :
    List (List Bool) :=
  let i := pt.1
  let cj := pt.2
  let t := idx.getD i 0
  let t1 := t - w
  match bk, dir with
  | .lower, none => setColIf cols2 cj idx (fun s => decide (t1 ≤ s ∧ s ≤ t)) false
  | _, _ =>
    let c := df.cols.getD cj []
    let minT := idxMinW idx c t1 t
    let maxT := idxMaxW idx c t1 t
    match bk with
    | .lower =>
      if dir = some .pos ∧ leO minT maxT then
        setColIf cols2 cj idx (fun s => decide (t1 ≤ s ∧ s ≤ t)) false
      else if dir = some .neg ∧ leO maxT minT then
        setColIf cols2 cj idx (fun s => decide (t1 ≤ s ∧ s ≤ t)) false
      else cols2
    | .upper =>
      let m2 := setCellB cols2 cj i true
      if ltO minT maxT ∧ (dir = none ∨ dir = some .pos) then
        setColIf m2 cj idx (btwO minT maxT) false
      else if ltO maxT minT ∧ (dir = none ∨ dir = some .neg) then
        setColIf m2 cj idx (btwO maxT minT) false
      else if eqO minT maxT then setCellB m2 cj i false
      else m2

/-- The condition under which one flagged point of the lower-bound branch of
`update_mask` marks its whole trailing window (monitoring.py lines 540–547):
unconditionally when `direction` is None, and otherwise only when the order
of the window's idxmin/idxmax matches the requested direction (`min_time <=
max_time` for positive, `min_time >= max_time` for negative, each False when
either is NaN). -/
def lowerMarks (df : DataFrame) (w : Nat) (dir : Option Dir) (idx : List Nat)
    (pt : Nat × Nat) : Bool :=
  match dir with
  | none => true
  | some .pos =>
      leO (idxMinW idx (df.cols.getD pt.2 []) (idx.getD pt.1 0 - w) (idx.getD pt.1 0))
        (idxMaxW idx (df.cols.getD pt.2 []) (idx.getD pt.1 0 - w) (idx.getD pt.1 0))
  | some .neg =>
      leO (idxMaxW idx (df.cols.getD pt.2 []) (idx.getD pt.1 0 - w) (idx.getD pt.1 0))
        (idxMinW idx (df.cols.getD pt.2 []) (idx.getD pt.1 0 - w) (idx.getD pt.1 0))

/-- `update_mask(mask1, df, window, bound, direction)`: starting from an
all-True array, fold the per-point expansion over the flagged cells of
`mask1` in row-major order. -/
def updateMask (mask1 : Grid) (df : DataFrame) (w : Nat) (bk : BndKind)
    (dir : Option Dir) : Grid :=
  let start := mask1.cols.map (fun c => c.map (fun _ => true))
  let final := (flaggedCells mask1).foldl (deltaStep df w bk dir mask1.index) start
  { mask1 with cols := final }

/-- `PerformanceMonitoring.check_delta`: rolling delta against the bounds,
with the time filter applied before `update_mask` (and again inside
`_append_test_results`). -/
def checkDelta (pm : PM) (lower upper : Option ℚ) (w : Nat)
    (key : Option String) (dir : Option Dir) (m : Nat) : PM :=
  match setupData pm key with
  | none => pm
  | some df =>
    let dg := deltaGrid df w
    let errPre := match dir with
      | some .pos => "Delta (+)"
      | some .neg => "Delta (-)"
      | none => "Delta"
    let pm1 := match lower with
      | none => pm
      | some lo =>
        let g : Grid :=
          { index := df.index, colNames := df.colNames
            cols := dg.map (fun c => c.map (fun v => !(ltBnd v lo))) }
        let g := applyTFilter pm.tfilter g
        let g := updateMask g df w .lower dir
        appendTestResults pm g (errPre ++ " < lower bound, " ++ toString lo) m false
    match upper with
    | none => pm1
    | some hi =>
      let g : Grid :=
        { index := df.index, colNames := df.colNames
          cols := dg.map (fun c => c.map (fun v => !(gtBnd v hi))) }
      let g := applyTFilter pm1.tfilter g
      let g := updateMask g df w .upper dir
      appendTestResults pm1 g (errPre ++ " > upper bound, " ++ toString hi) m false

/-! ## Streaming framework (`check_custom_streaming`)

The working data `np_data` and the mask `np_mask` are row-major arrays; the
loop runs over row positions in ascending order. -/

/-- The state of the streaming loop: working data copy and mask, both
row-major. -/
structure StreamState where
  data : List (List (Option ℚ))
  mask : List (List Bool)
  deriving DecidableEq, Repr

/-- `index.get_loc(target, method='nearest')`: the position whose timestamp
is closest to the target (on an equidistant tie the larger index value, i.e.
the later position, wins). -/
def nearestLoc (idx : List Nat) (target : Nat) : Nat :=
  let dist := fun i => max (idx.getD i 0) target - min (idx.getD i 0) target
  (List.range idx.length).foldl (fun best i => if dist i ≤ dist best then i else best) 0

/-- `np_data[~np_mask] = np.NAN`: null every cell whose mask entry is
False. -/
def applyMaskRows (data : List (List (Option ℚ))) (mask : List (List Bool)) :
    List (List (Option ℚ)) :=
  List.zipWith (fun drow mrow =>
    List.zipWith (fun v b => if b then v else none) drow mrow) data mask

/-- One iteration of the `check_custom_streaming` loop at row position `t`:
extract the trailing history `np_data[t_start:t]`, ask the user function for
a verdict on the current point, write the verdict into the mask, re-null the
working data, and optionally rebase columns whose missing fraction in the
trailing window (history plus current point) exceeds the threshold by
restoring the original value at `t`. -/
def streamStep (qc : List (Option ℚ) → List (List (Option ℚ)) → List Bool)
    (orig : List (List (Option ℚ))) (idx : List Nat) (w : Nat) (rb : Option ℚ)
    (st : StreamState) (t : Nat) : StreamState :=
  let tStart := nearestLoc idx (idx.getD t 0 - w)
  let dataPt := st.data.getD t []
  let history := (st.data.take t).drop tStart
  let verdict := qc dataPt history
  let mask1 := st.mask.set t verdict
  let data1 := applyMaskRows st.data mask1
  let data2 := match rb with
    | none => data1
    | some r =>
      let hist2 := (data1.take (t + 1)).drop tStart
      let row := data1.getD t []
      let origRow := orig.getD t []
      data1.set t (row.mapIdx (fun cI v =>
        if (r : ℚ) < (hist2.countP (fun hrow => (hrow.getD cI none).isNone) : ℚ) / (hist2.length : ℚ)
        then origRow.getD cI none else v))
  { data := data2, mask := mask1 }

/-- `ti = df.index.get_loc(df.index[0] + history_window)`, an exact label
lookup (a missing label raises `KeyError`; `none` records that). -/
def streamTiOpt (idx : List Nat) (w : Nat) : Option Nat :=
  idx.findIdx? (fun t => t == idx.getD 0 0 + w)

/-- The streaming loop from `ti` to the last row: fold `streamStep` over the
row positions in ascending order, starting from the original data and an
all-True mask. -/
def runStream (qc : List (Option ℚ) → List (List (Option ℚ)) → List Bool)
    (idx : List Nat) (w : Nat) (rb : Option ℚ)
    (orig : List (List (Option ℚ))) : StreamState :=
  let ti := (streamTiOpt idx w).getD idx.length
  (List.range' ti (orig.length - ti)).foldl (streamStep qc orig idx w rb)
    { data := orig, mask := orig.map (fun row => row.map (fun _ => true)) }

/-- The rows of a DataFrame's value grid (row-major view of the columns). -/
def rowsOf (df : DataFrame) : List (List (Option ℚ)) :=
  (List.range df.index.length).map (fun i => df.cols.map (fun c => c.getD i none))

/-- `PerformanceMonitoring.check_custom_streaming` (metadata dropped): run
the streaming loop and append the accumulated mask's failure intervals;
`none` models the `KeyError` when `index[0] + window` is not an index
label. -/
def checkCustomStreaming (pm : PM)
    (qc : List (Option ℚ) → List (List (Option ℚ)) → List Bool)
    (w : Nat) (key : Option String) (rb : Option ℚ) (m : Nat)
    (msg : String) : Option PM :=
  match setupData pm key with
  | none => some pm
  | some df =>
    match streamTiOpt df.index w with
    | none => none
    | some _ =>
      let final := runStream qc df.index w rb (rowsOf df)
      let g : Grid :=
        { index := pm.df.index
          colNames := pm.df.colNames
          cols := (List.range pm.df.colNames.length).map (fun cj =>
            final.mask.map (fun row => row.getD cj true)) }
      some (appendTestResults pm g msg m false)

/-! ## Batch outlier test (`check_outlier`, `streaming=False`)

The source normalizes to z-scores `(x - mean)/std` (floats) and compares
them to the bounds; `±inf` (zero standard deviation) is replaced by NaN.
Standard deviations are irrational, so the embedding carries each z-score as
the exact pair `(d, var) = (x - mean, variance)` and decides the real-number
comparison `d / sqrt var < b` by sign analysis and squaring, which is
mathematically the same predicate. -/

/-- Arithmetic mean of a rational list. -/
def meanL (l : List ℚ) : ℚ := l.sum / (l.length : ℚ)

/-- Sample variance (`ddof=1`, as pandas `std`): NaN with fewer than two
observations. -/
def varS (l : List ℚ) : Option ℚ :=
  if l.length < 2 then none
  else some ((l.map (fun x => (x - meanL l) ^ 2)).sum / ((l.length : ℚ) - 1))

/-- Decide `d / sqrt var < b` for `var > 0` without square roots. -/
def zLt (d var b : ℚ) : Bool :=
  if 0 ≤ d then decide (0 ≤ b) && decide (d ^ 2 < b ^ 2 * var)
  else decide (0 ≤ b) || decide (b ^ 2 * var < d ^ 2)

/-- Decide `b < d / sqrt var` for `var > 0` without square roots. -/
def zGt (d var b : ℚ) : Bool :=
  if d ≤ 0 then decide (b ≤ 0) && decide (b ^ 2 * var < d ^ 2)
  else decide (b ≤ 0) || decide (d ^ 2 > b ^ 2 * var)

/-- The z-score of one cell against window observations: `none` (NaN) when
the value is missing, fewer than two observations exist, or the variance is
zero (division by a zero standard deviation yields `±inf`/NaN, which the
source replaces by NaN).  Otherwise the exact pair `(x - mean, variance)`,
with `|x - mean|` when `absolute_value` is set. -/
def zCell (obs : List ℚ) (v : Option ℚ) (absV : Bool) : Option (ℚ × ℚ) :=
  match v, varS obs with
  | some x, some var =>
    if var = 0 then none
    else some (if absV then |x - meanL obs| else x - meanL obs, var)
  | _, _ => none

/-- The z-score grid of one column: rolling (`min_periods=2, closed='both'`)
when a window is given, whole-column otherwise. -/
def zColumn (idx : List Nat) (c : List (Option ℚ)) (window : Option Nat)
    (absV : Bool) : List (Option (ℚ × ℚ)) :=
  match window with
  | some w =>
    (List.range idx.length).map (fun i => zCell (rollObs idx c w i) (c.getD i none) absV)
  | none =>
    let obs := c.filterMap id
    (List.range idx.length).map (fun i => zCell obs (c.getD i none) absV)

/-- `PerformanceMonitoring.check_outlier` with `streaming=False`: z-score
normalization then the `_generate_test_results` bound logic on the z-score
grid (NaN comparisons are False, so NaN cells pass). -/
def checkOutlierBatch (pm : PM) (lower upper : Option ℚ) (window : Option Nat)
    (key : Option String) (absV : Bool) (m : Nat) : PM :=
  match setupData pm key with
  | none => pm
  | some df =>
    let errPre := if absV then "|Outlier|" else "Outlier"
    let z := df.cols.map (fun c => zColumn df.index c window absV)
    let pm1 := match lower with
      | none => pm
      | some lo =>
        let g : Grid :=
          { index := df.index, colNames := df.colNames
            cols := z.map (fun c => c.map (fun zv =>
              match zv with
              | none => true
              | some dv => !(zLt dv.1 dv.2 lo))) }
        appendTestResults pm g (errPre ++ " < lower bound, " ++ toString lo) m false
    match upper with
    | none => pm1
    | some hi =>
      let g : Grid :=
        { index := df.index, colNames := df.colNames
          cols := z.map (fun c => c.map (fun zv =>
            match zv with
            | none => true
            | some dv => !(zGt dv.1 dv.2 hi))) }
      appendTestResults pm1 g (errPre ++ " > upper bound, " ++ toString hi) m false

/-! ## Lemmas: the transition-mask extraction computes the maximal runs -/

theorem runsLA_map_snd (f : List Bool) (p : Nat) (st : Option Nat) :
    (runsLA f p st).map Prod.snd = trueIdxs (tmGo f) p := by
  induction f generalizing p st with
  | nil => rfl
  | cons b rest ih =>
    cases b with
    | false => simpa [runsLA, tmGo, trueIdxs] using ih (p + 1) none
    | true =>
      cases rest with
      | nil => simp [runsLA, tmGo, trueIdxs]
      | cons b2 rest2 =>
        cases b2 with
        | true => simpa [runsLA, tmGo, trueIdxs] using ih (p + 1) (some (st.getD p))
        | false => simpa [runsLA, tmGo, trueIdxs] using ih (p + 1) none

theorem runsLA_map_fst (f : List Bool) (p : Nat) :
    ((runsLA f p none).map Prod.fst = trueIdxs (smGo false f) p) ∧
    (∀ s, f.headD false = true →
      (runsLA f p (some s)).map Prod.fst = s :: trueIdxs (smGo true f) p) := by
  induction f generalizing p with
  | nil => exact ⟨rfl, fun s h => by simp at h⟩
  | cons b rest ih =>
    constructor
    · cases b with
      | false => simpa [runsLA, smGo, trueIdxs] using (ih (p + 1)).1
      | true =>
        cases rest with
        | nil => simp [runsLA, smGo, trueIdxs]
        | cons b2 rest2 =>
          cases b2 with
          | true =>
            simpa [runsLA, smGo, trueIdxs] using (ih (p + 1)).2 p rfl
          | false =>
            simpa [runsLA, smGo, trueIdxs] using (ih (p + 1)).1
    · intro s h
      simp only [List.headD_cons] at h
      subst h
      cases rest with
      | nil => simp [runsLA, smGo, trueIdxs]
      | cons b2 rest2 =>
        cases b2 with
        | true =>
          simpa [runsLA, smGo, trueIdxs] using (ih (p + 1)).2 s rfl
        | false =>
          simpa [runsLA, smGo, trueIdxs] using (ih (p + 1)).1

theorem zip_map_fst_snd {α β : Type} (l : List (α × β)) :
    (l.map Prod.fst).zip (l.map Prod.snd) = l := by
  induction l with
  | nil => rfl
  | cons x r ih => simp [ih]

theorem colBlocks_eq_runsLA (f : List Bool) : colBlocks f = runsLA f 0 none := by
  unfold colBlocks
  rw [← runsLA_map_snd f 0 none, ← (runsLA_map_fst f 0).1, zip_map_fst_snd]

theorem runsLA_shift (f : List Bool) (q : Nat) : ∀ (p : Nat) (st : Option Nat),
    runsLA f (p + q) (st.map (fun x => x + q)) =
      (runsLA f p st).map (fun x => (x.1 + q, x.2 + q)) := by
  induction f with
  | nil => intro p st; rfl
  | cons b rest ih =>
    intro p st
    have hgd : (st.map (fun x => x + q)).getD (p + q) = st.getD p + q := by
      cases st <;> rfl
    cases b with
    | false =>
      have h1 := ih (p + 1) none
      simp only [runsLA, Bool.false_eq_true, if_false]
      rw [show p + q + 1 = p + 1 + q by omega]
      simpa using h1
    | true =>
      cases rest with
      | nil => simp [runsLA, hgd]
      | cons b2 rest2 =>
        cases b2 with
        | true =>
          show runsLA (true :: rest2) (p + q + 1)
              (some ((st.map (fun x => x + q)).getD (p + q))) =
            List.map (fun x => (x.1 + q, x.2 + q))
              (runsLA (true :: rest2) (p + 1) (some (st.getD p)))
          rw [hgd, show p + q + 1 = p + 1 + q by omega]
          simpa using ih (p + 1) (some (st.getD p))
        | false =>
          show ((st.map (fun x => x + q)).getD (p + q), p + q) ::
              runsLA (false :: rest2) (p + q + 1) none =
            List.map (fun x => (x.1 + q, x.2 + q))
              ((st.getD p, p) :: runsLA (false :: rest2) (p + 1) none)
          rw [hgd, show p + q + 1 = p + 1 + q by omega]
          simpa using ih (p + 1) none

theorem runsLA_true_none (rest : List Bool) (p : Nat) :
    runsLA (true :: rest) p none = runsLA (true :: rest) p (some p) := by
  simp [runsLA]

theorem runsLA_true_peel : ∀ (rest : List Bool) (p s : Nat),
    runsLA (true :: rest) p (some s) =
      (s, p + leadT rest) :: runsLA (rest.drop (leadT rest)) (p + leadT rest + 1) none := by
  intro rest
  induction rest with
  | nil => intro p s; simp [runsLA, leadT]
  | cons b2 rest2 ih =>
    intro p s
    cases b2 with
    | true =>
      have h1 := ih (p + 1) s
      simp only [runsLA, List.headD_cons, if_true, Option.getD_some, leadT,
        List.drop_succ_cons] at h1 ⊢
      rw [show p + (leadT rest2 + 1) = p + 1 + leadT rest2 by omega]
      exact h1
    | false =>
      simp [runsLA, leadT]

theorem getD_drop_bool (l : List Bool) : ∀ (n j : Nat),
    (l.drop n).getD j false = l.getD (n + j) false := by
  induction l with
  | nil => intro n j; simp
  | cons b rest ih =>
    intro n j
    cases n with
    | zero => simp
    | succ n2 =>
      simp only [List.drop_succ_cons]
      rw [ih n2 j, show n2 + 1 + j = (n2 + j) + 1 by omega, List.getD_cons_succ]

theorem leadT_le (f : List Bool) : leadT f ≤ f.length := by
  induction f with
  | nil => simp [leadT]
  | cons b rest ih =>
    cases b with
    | false => simp [leadT]
    | true => simp only [leadT, if_true, List.length_cons]; omega

theorem leadT_getD {f : List Bool} : ∀ {j : Nat}, j < leadT f → f.getD j false = true := by
  induction f with
  | nil => intro j h; simp [leadT] at h
  | cons b rest ih =>
    intro j h
    cases b with
    | false => simp [leadT] at h
    | true =>
      cases j with
      | zero => rfl
      | succ j2 =>
        simp only [leadT, if_true] at h
        rw [List.getD_cons_succ]
        exact ih (by omega)

theorem leadT_boundary (f : List Bool) :
    leadT f = f.length ∨ f.getD (leadT f) false = false := by
  induction f with
  | nil => left; rfl
  | cons b rest ih =>
    cases b with
    | false => right; rfl
    | true =>
      rcases ih with h | h
      · left; simp [leadT, h]
      · right; simpa [leadT] using h

theorem isMaxRun_cons_false (rest : List Bool) (s e : Nat) :
    isMaxRun (false :: rest) s e ↔
      ∃ a b, isMaxRun rest a b ∧ s = a + 1 ∧ e = b + 1 := by
  constructor
  · rintro ⟨hse, he, hint, hleft, hright⟩
    have hs1 : 1 ≤ s := by
      by_contra h
      have h0 : s = 0 := by omega
      have := hint 0 (by omega) (by omega)
      simp [h0] at this
    refine ⟨s - 1, e - 1, ⟨by omega, ?_, ?_, ?_, ?_⟩, by omega, by omega⟩
    · simp only [List.length_cons] at he; omega
    · intro j hj1 hj2
      have := hint (j + 1) (by omega) (by omega)
      simpa using this
    · rcases Nat.lt_or_ge s 2 with h2 | h2
      · left; omega
      · right
        rcases hleft with h | h
        · omega
        · have hrw : s - 1 = (s - 2) + 1 := by omega
          rw [hrw, List.getD_cons_succ] at h
          have : s - 1 - 1 = s - 2 := by omega
          rw [this]; exact h
    · rcases hright with h | h
      · left; simp only [List.length_cons] at h; omega
      · right
        have hrw : e + 1 = e - 1 + 1 + 1 := by omega
        rw [hrw, List.getD_cons_succ] at h
        exact h
  · rintro ⟨a, b, ⟨hab, hb, hint, hleft, hright⟩, rfl, rfl⟩
    refine ⟨by omega, by simp only [List.length_cons]; omega, ?_, ?_, ?_⟩
    · intro j hj1 hj2
      have hj : j = (j - 1) + 1 := by omega
      rw [hj, List.getD_cons_succ]
      exact hint (j - 1) (by omega) (by omega)
    · right
      cases a with
      | zero => rfl
      | succ a2 =>
        rw [show a2 + 1 + 1 - 1 = a2 + 1 by omega, List.getD_cons_succ]
        rcases hleft with h | h
        · exact absurd h (by omega)
        · rw [show a2 + 1 - 1 = a2 by omega] at h
          exact h
    · rcases hright with h | h
      · left; simp only [List.length_cons]; omega
      · right
        rw [show b + 1 + 1 = (b + 1) + 1 by rfl, List.getD_cons_succ]
        exact h

theorem isMaxRun_cons_true (rest : List Bool) (s e : Nat) :
    isMaxRun (true :: rest) s e ↔
      ((s = 0 ∧ e = leadT rest) ∨
        ∃ a b, isMaxRun (rest.drop (leadT rest)) a b ∧
          s = a + leadT rest + 1 ∧ e = b + leadT rest + 1) := by
  obtain ⟨k, hk⟩ : ∃ k, leadT rest = k := ⟨_, rfl⟩
  rw [hk]
  have factA : ∀ j, j ≤ k → (true :: rest).getD j false = true := by
    intro j hj
    cases j with
    | zero => rfl
    | succ j2 =>
      rw [List.getD_cons_succ]
      exact leadT_getD (by omega)
  have factB : k + 1 = (true :: rest).length ∨ (true :: rest).getD (k + 1) false = false := by
    rcases leadT_boundary rest with h | h
    · left; rw [hk] at h; simp [h]
    · right; rw [hk] at h; simpa using h
  have hkle : k ≤ rest.length := hk ▸ leadT_le rest
  constructor
  · rintro ⟨hse, he, hint, hleft, hright⟩
    by_cases hs : s = 0
    · subst hs
      left
      refine ⟨rfl, ?_⟩
      have hek : e ≤ k := by
        by_contra h
        have hk1 : k + 1 ≤ e := by omega
        have h1 := hint (k + 1) (by omega) (by omega)
        rcases factB with h2 | h2
        · simp only [List.length_cons] at h2 he; omega
        · rw [h1] at h2; exact absurd h2 (by simp)
      have hke : k ≤ e := by
        by_contra h
        have h1 : e + 1 ≤ k := by omega
        have h2 := factA (e + 1) h1
        rcases hright with h3 | h3
        · simp only [List.length_cons] at h3; omega
        · rw [h2] at h3; exact absurd h3 (by simp)
      omega
    · right
      have hs2 : k + 2 ≤ s := by
        by_contra h
        have h1 : s - 1 ≤ k := by omega
        have h2 := factA (s - 1) h1
        rcases hleft with h3 | h3
        · exact hs h3
        · rw [h2] at h3; exact absurd h3 (by simp)
      refine ⟨s - k - 1, e - k - 1, ⟨by omega, ?_, ?_, ?_, ?_⟩, by omega, by omega⟩
      · rw [List.length_drop]
        simp only [List.length_cons] at he
        omega
      · intro j hj1 hj2
        rw [getD_drop_bool]
        have h1 := hint (k + j + 1) (by omega) (by omega)
        rw [show k + j + 1 = (k + j) + 1 by rfl, List.getD_cons_succ] at h1
        exact h1
      · right
        rcases hleft with h3 | h3
        · exact absurd h3 hs
        · rw [getD_drop_bool]
          rw [show s - 1 = (k + (s - k - 1 - 1)) + 1 by omega, List.getD_cons_succ] at h3
          exact h3
      · rcases hright with h3 | h3
        · left
          rw [List.length_drop]
          simp only [List.length_cons] at h3
          omega
        · right
          rw [getD_drop_bool]
          rw [show e + 1 = (k + (e - k - 1 + 1)) + 1 by omega, List.getD_cons_succ] at h3
          exact h3
  · rintro (⟨rfl, rfl⟩ | ⟨a, b, ⟨hab, hb, hint, hleft, hright⟩, rfl, rfl⟩)
    · refine ⟨by omega, by simp only [List.length_cons]; omega, ?_, ?_, ?_⟩
      · intro j hj1 hj2; exact factA j hj2
      · left; rfl
      · exact factB
    · have ha1 : 1 ≤ a := by
        by_contra h
        have h1 := hint 0 (by omega) (by omega)
        rw [getD_drop_bool] at h1
        rcases leadT_boundary rest with h2 | h2
        · rw [hk] at h2; rw [List.length_drop] at hb; omega
        · rw [hk] at h2
          rw [show k + 0 = k by rfl] at h1
          rw [h1] at h2; exact absurd h2 (by simp)
      have hklen : k < rest.length := by
        rw [List.length_drop] at hb; omega
      refine ⟨by omega, ?_, ?_, ?_, ?_⟩
      · simp only [List.length_cons]
        rw [List.length_drop] at hb
        omega
      · intro j hj1 hj2
        have hj : j = (j - 1) + 1 := by omega
        rw [hj, List.getD_cons_succ]
        have h1 := hint (j - 1 - k) (by omega) (by omega)
        rw [getD_drop_bool] at h1
        rw [show k + (j - 1 - k) = j - 1 by omega] at h1
        exact h1
      · right
        rcases hleft with h | h
        · omega
        · rw [getD_drop_bool] at h
          rw [show a + k + 1 - 1 = (k + (a - 1)) + 1 by omega, List.getD_cons_succ]
          exact h
      · rcases hright with h | h
        · left
          rw [List.length_drop] at h
          simp only [List.length_cons]
          omega
        · right
          rw [getD_drop_bool] at h
          rw [show b + k + 1 + 1 = (k + (b + 1)) + 1 by omega, List.getD_cons_succ]
          exact h

theorem runsLA_mem : ∀ (f : List Bool) (s e : Nat),
    ((s, e) ∈ runsLA f 0 none) ↔ isMaxRun f s e
  | [], s, e => by
    constructor
    · intro h; simp [runsLA] at h
    · rintro ⟨h1, h2, h3⟩; simp at h2
  | false :: rest, s, e => by
    have ihr := runsLA_mem rest
    have hshift := runsLA_shift rest 1 0 none
    simp only [Option.map_none', Nat.zero_add] at hshift
    rw [isMaxRun_cons_false]
    constructor
    · intro h
      simp only [runsLA, Bool.false_eq_true, if_false] at h
      rw [hshift] at h
      rcases List.mem_map.mp h with ⟨x, hx, hxe⟩
      exact ⟨x.1, x.2, (ihr x.1 x.2).mp hx, by
        have := congrArg Prod.fst hxe; simpa using this.symm, by
        have := congrArg Prod.snd hxe; simpa using this.symm⟩
    · rintro ⟨a, b, hab, rfl, rfl⟩
      simp only [runsLA, Bool.false_eq_true, if_false]
      rw [hshift]
      exact List.mem_map.mpr ⟨(a, b), (ihr a b).mpr hab, rfl⟩
  | true :: rest, s, e => by
    have ihd := runsLA_mem (rest.drop (leadT rest))
    have hpeel := runsLA_true_peel rest 0 0
    have hshift := runsLA_shift (rest.drop (leadT rest)) (leadT rest + 1) 0 none
    simp only [Option.map_none', Nat.zero_add] at hshift hpeel
    rw [isMaxRun_cons_true]
    rw [runsLA_true_none, hpeel]
    constructor
    · intro h
      rcases List.mem_cons.mp h with h1 | h1
      · left
        injection h1 with ha hb
        exact ⟨ha, hb⟩
      · right
        rw [hshift] at h1
        rcases List.mem_map.mp h1 with ⟨x, hx, hxe⟩
        refine ⟨x.1, x.2, (ihd x.1 x.2).mp hx, ?_, ?_⟩
        · have := congrArg Prod.fst hxe
          simp at this
          omega
        · have := congrArg Prod.snd hxe
          simp at this
          omega
    · rintro (⟨rfl, rfl⟩ | ⟨a, b, hab, rfl, rfl⟩)
      · exact List.mem_cons_self _ _
      · refine List.mem_cons.mpr (Or.inr ?_)
        rw [hshift]
        refine List.mem_map.mpr ⟨(a, b), (ihd a b).mpr hab, ?_⟩
        simp
        constructor <;> omega
termination_by f _ _ => f.length
decreasing_by
  · simp only [List.length_cons]; omega
  · simp only [List.length_cons, List.length_drop]; omega

theorem runsLA_fst_lb : ∀ (f : List Bool) (p : Nat) (st : Option Nat) (x : Nat × Nat),
    x ∈ runsLA f p st → x.1 = st.getD p ∨ p ≤ x.1 := by
  intro f
  induction f with
  | nil => intro p st x hx; simp [runsLA] at hx
  | cons b rest ih =>
    intro p st x hx
    cases b with
    | false =>
      simp only [runsLA, Bool.false_eq_true, if_false] at hx
      rcases ih (p + 1) none x hx with h | h
      · right; simp at h; omega
      · right; omega
    | true =>
      cases rest with
      | nil =>
        simp only [runsLA] at hx
        rcases List.mem_singleton.mp hx with rfl
        left; rfl
      | cons b2 rest2 =>
        cases b2 with
        | true =>
          simp only [runsLA, List.headD_cons, if_true] at hx
          rcases ih (p + 1) (some (st.getD p)) x hx with h | h
          · left; simpa using h
          · right; omega
        | false =>
          simp only [runsLA, List.headD_cons, Bool.false_eq_true, if_false, if_true,
            List.mem_cons] at hx
          rcases hx with rfl | hx
          · left; rfl
          · rcases ih (p + 1) none x hx with h | h
            · right; simp at h; omega
            · right; omega

theorem runsLA_snd_ub : ∀ (f : List Bool) (p : Nat) (st : Option Nat) (x : Nat × Nat),
    x ∈ runsLA f p st → x.2 < p + f.length ∧ p ≤ x.2 := by
  intro f
  induction f with
  | nil => intro p st x hx; simp [runsLA] at hx
  | cons b rest ih =>
    intro p st x hx
    cases b with
    | false =>
      simp only [runsLA, Bool.false_eq_true, if_false] at hx
      have := ih (p + 1) none x hx
      simp only [List.length_cons]
      omega
    | true =>
      cases rest with
      | nil =>
        simp only [runsLA] at hx
        rcases List.mem_singleton.mp hx with rfl
        simp
      | cons b2 rest2 =>
        cases b2 with
        | true =>
          simp only [runsLA, List.headD_cons, if_true] at hx
          have := ih (p + 1) (some (st.getD p)) x hx
          simp only [List.length_cons] at this ⊢
          omega
        | false =>
          simp only [runsLA, List.headD_cons, Bool.false_eq_true, if_false, if_true,
            List.mem_cons] at hx
          rcases hx with rfl | hx
          · simp
          · have := ih (p + 1) none x hx
            simp only [List.length_cons] at this ⊢
            omega

theorem runsLA_pairwise : ∀ (f : List Bool) (p : Nat) (st : Option Nat),
    List.Pairwise (fun x y => x.2 < y.1) (runsLA f p st) := by
  intro f
  induction f with
  | nil => intro p st; simp [runsLA]
  | cons b rest ih =>
    intro p st
    cases b with
    | false =>
      simp only [runsLA, Bool.false_eq_true, if_false]
      exact ih (p + 1) none
    | true =>
      cases rest with
      | nil => simp [runsLA]
      | cons b2 rest2 =>
        cases b2 with
        | true =>
          simp only [runsLA, List.headD_cons, if_true]
          exact ih (p + 1) (some (st.getD p))
        | false =>
          simp only [runsLA, List.headD_cons, Bool.false_eq_true, if_false, if_true]
          refine List.pairwise_cons.mpr ⟨?_, ih (p + 1) none⟩
          intro y hy
          rcases runsLA_fst_lb _ _ _ y hy with h | h
          · simp only [Option.getD_none] at h
            simp only
            omega
          · simp only
            omega

/-! ## Lemmas about `colResults` and `appendTestResults` -/

theorem getD_map_not (c : List Bool) (j : Nat) (hj : j < c.length) :
    (c.map not).getD j false = !(c.getD j true) := by
  induction c generalizing j with
  | nil => simp at hj
  | cons b rest ih =>
    cases j with
    | zero => simp
    | succ j2 =>
      simp only [List.map_cons, List.getD_cons_succ]
      exact ih j2 (by simpa using hj)

theorem colResults_mem (idx : List Nat) (n : String) (c : List Bool)
    (msg : String) (m : Nat) (r : TestResult) :
    r ∈ colResults idx n c msg m ↔
      ∃ s e, isMaxRun (c.map not) s e ∧ m ≤ e - s + 1 ∧
        r = { varName := n, startTime := idx.getD s 0, endTime := idx.getD e 0,
              timesteps := e - s + 1, errorFlag := msg } := by
  unfold colResults
  rw [colBlocks_eq_runsLA]
  constructor
  · intro h
    rcases List.mem_filterMap.mp h with ⟨se, hse, hr⟩
    by_cases hm : m ≤ se.2 - se.1 + 1
    · rw [if_pos hm] at hr
      refine ⟨se.1, se.2, ?_, hm, (Option.some.injEq _ _ ▸ hr).symm⟩
      exact (runsLA_mem (c.map not) se.1 se.2).mp (by simpa using hse)
    · rw [if_neg hm] at hr
      exact absurd hr (by simp)
  · rintro ⟨s, e, hrun, hm, rfl⟩
    refine List.mem_filterMap.mpr ⟨(s, e), ?_, ?_⟩
    · exact (runsLA_mem (c.map not) s e).mpr hrun
    · rw [if_pos hm]

theorem colResults_varName {idx : List Nat} {n : String} {c : List Bool}
    {msg : String} {m : Nat} {r : TestResult}
    (h : r ∈ colResults idx n c msg m) : r.varName = n ∧ r.errorFlag = msg := by
  rcases (colResults_mem idx n c msg m r).mp h with ⟨s, e, _, _, rfl⟩
  exact ⟨rfl, rfl⟩

theorem pairwise_lt_getD {idx : List Nat} (h : List.Pairwise (· < ·) idx)
    {i j : Nat} (hij : i < j) (hj : j < idx.length) :
    idx.getD i 0 < idx.getD j 0 := by
  rw [List.getD_eq_getElem idx 0 (by omega), List.getD_eq_getElem idx 0 hj]
  exact List.pairwise_iff_getElem.mp h i j (by omega) hj hij

theorem colResults_cover_fail {idx : List Nat} {n : String} {c : List Bool}
    {msg : String} {m : Nat} {r : TestResult}
    (hmono : List.Pairwise (· < ·) idx) (hlen : c.length = idx.length)
    (hr : r ∈ colResults idx n c msg m) {j : Nat} (hj : j < idx.length)
    (h1 : r.startTime ≤ idx.getD j 0) (h2 : idx.getD j 0 ≤ r.endTime) :
    c.getD j true = false := by
  rcases (colResults_mem idx n c msg m r).mp hr with ⟨s, e, hrun, hm, rfl⟩
  obtain ⟨hse, he, hint, _, _⟩ := hrun
  rw [List.length_map] at he
  have hsj : s ≤ j := by
    by_contra h
    have : idx.getD j 0 < idx.getD s 0 := pairwise_lt_getD hmono (by omega) (by omega)
    simp only at h1
    omega
  have hje : j ≤ e := by
    by_contra h
    have : idx.getD e 0 < idx.getD j 0 := pairwise_lt_getD hmono (by omega) hj
    simp only at h2
    omega
  have := hint j hsj hje
  rw [getD_map_not c j (by omega)] at this
  cases hc : c.getD j true with
  | false => rfl
  | true => rw [hc] at this; simp at this

theorem colResults_nodup (idx : List Nat) (n : String) (c : List Bool)
    (msg : String) (m : Nat) (hmono : List.Pairwise (· < ·) idx)
    (hlen : c.length = idx.length) :
    (colResults idx n c msg m).Nodup := by
  unfold colResults
  rw [colBlocks_eq_runsLA]
  unfold List.Nodup
  rw [List.pairwise_filterMap]
  have hpw := runsLA_pairwise (c.map not) 0 none
  refine hpw.imp_of_mem ?_
  intro x y hx hy hxy r1 hr1 r2 hr2
  have hx1 := (runsLA_mem (c.map not) x.1 x.2).mp hx
  have hy1 := (runsLA_mem (c.map not) y.1 y.2).mp hy
  by_cases hmx : m ≤ x.2 - x.1 + 1
  · by_cases hmy : m ≤ y.2 - y.1 + 1
    · rw [if_pos hmx] at hr1
      rw [if_pos hmy] at hr2
      simp only [Option.mem_def, Option.some.injEq] at hr1 hr2
      subst hr1; subst hr2
      intro hcontra
      have hst : idx.getD x.1 0 = idx.getD y.1 0 := congrArg TestResult.startTime hcontra
      have hy2 : y.2 < idx.length := by
        have := hy1.2.1
        rw [List.length_map] at this
        omega
      have hy11 : y.1 ≤ y.2 := hy1.1
      have hx11 : x.1 ≤ x.2 := hx1.1
      have : idx.getD x.1 0 < idx.getD y.1 0 :=
        pairwise_lt_getD hmono (by omega) (by omega)
      omega
    · rw [if_neg hmy] at hr2
      simp at hr2
  · rw [if_neg hmx] at hr1
    simp at hr1

theorem getD_mapIdx {α β : Type} (l : List α) (f : Nat → α → β) (j : Nat)
    (d : β) (hj : j < l.length) :
    (l.mapIdx f).getD j d = f j (l.get ⟨j, hj⟩) := by
  have hj2 : j < (l.mapIdx f).length := by simp [List.length_mapIdx]; exact hj
  rw [List.getD_eq_getElem _ _ hj2]
  have h := List.get_mapIdx l f j hj
  simp only [List.get_eq_getElem] at h
  exact h

theorem getD_mapIdx_oob {α β : Type} (l : List α) (f : Nat → α → β) (j : Nat)
    (d : β) (hj : l.length ≤ j) :
    (l.mapIdx f).getD j d = d := by
  apply List.getD_eq_default
  simpa [List.length_mapIdx] using hj

theorem sum_counts_le {L : List (List Bool)} {R : Nat}
    (h : ∀ c ∈ L, c.length = R) :
    (L.map (fun c => c.count true)).sum ≤ R * L.length := by
  induction L with
  | nil => simp
  | cons c L2 ih =>
    simp only [List.map_cons, List.sum_cons, List.length_cons]
    have h1 : c.count true ≤ R := by
      rw [← h c (by simp)]
      exact List.count_le_length true c
    have h2 := ih (fun c2 hc2 => h c2 (List.mem_cons_of_mem _ hc2))
    have : R * (L2.length + 1) = R + R * L2.length := by ring
    omega

theorem sum_counts_eq {L : List (List Bool)} {R : Nat}
    (h : ∀ c ∈ L, c.length = R) :
    ((L.map (fun c => c.count true)).sum = R * L.length) ↔
      ∀ c ∈ L, ∀ b ∈ c, b = true := by
  induction L with
  | nil => simp
  | cons c L2 ih =>
    have h1 : c.count true ≤ R := by
      rw [← h c (by simp)]
      exact List.count_le_length true c
    have h2 := sum_counts_le (fun c2 hc2 => h c2 (List.mem_cons_of_mem _ hc2))
    have ih2 := ih (fun c2 hc2 => h c2 (List.mem_cons_of_mem _ hc2))
    simp only [List.map_cons, List.sum_cons, List.length_cons]
    constructor
    · intro heq
      have hR : R * (L2.length + 1) = R * L2.length + R := by ring
      have hsplit : c.count true = R ∧
          (L2.map (fun c => c.count true)).sum = R * L2.length := by omega
      intro c2 hc2
      rcases List.mem_cons.mp hc2 with rfl | hc2
      · intro b hb
        have hcl : c2.count true = c2.length := by
          rw [h c2 (by simp)]; exact hsplit.1
        exact (List.count_eq_length.mp hcl b hb).symm
      · exact ih2.mp hsplit.2 c2 hc2
    · intro hall
      have hc : c.count true = R := by
        rw [← h c (by simp)]
        exact List.count_eq_length.mpr (fun b hb => (hall c (by simp) b hb).symm)
      have hL2 : (L2.map (fun c => c.count true)).sum = R * L2.length :=
        ih2.mpr (fun c2 hc2 b hb => hall c2 (List.mem_cons_of_mem _ hc2) b hb)
      rw [hc, hL2]
      ring

theorem allPass_iff {g : Grid} (hwf : g.WF) :
    allPass g = true ↔ ∀ c ∈ g.cols, ∀ b ∈ c, b = true := by
  obtain ⟨_, hlen⟩ := hwf
  have h := @sum_counts_eq g.cols g.index.length hlen
  simp only [allPass, beq_iff_eq]
  exact h

theorem colResults_nil_of_allTrue {idx : List Nat} {n : String} {c : List Bool}
    {msg : String} {m : Nat} (h : ∀ b ∈ c, b = true) :
    colResults idx n c msg m = [] := by
  rw [List.eq_nil_iff_forall_not_mem]
  intro r hr
  rcases (colResults_mem idx n c msg m r).mp hr with ⟨s, e, hrun, _, _⟩
  obtain ⟨hse, he, hint, _, _⟩ := hrun
  have h1 := hint s (Nat.le_refl s) hse
  rw [List.length_map] at he
  rw [getD_map_not c s (by omega)] at h1
  have h2 : c.getD s true = true := by
    rw [List.getD_eq_getElem c true (by omega)]
    exact h _ (List.getElem_mem _)
  rw [h2] at h1
  simp at h1

theorem newResults_nil {g : Grid} {msg : String} {m : Nat} {ts : Bool}
    (h : ∀ c ∈ g.cols, ∀ b ∈ c, b = true) :
    newResults g msg m ts = [] := by
  unfold newResults
  rw [List.eq_nil_iff_forall_not_mem]
  intro r hr
  rcases List.mem_flatMap.mp hr with ⟨nc, hnc, hrc⟩
  have hc : nc.2 ∈ g.cols := (List.of_mem_zip hnc).2
  rw [colResults_nil_of_allTrue (h nc.2 hc)] at hrc
  simp at hrc

theorem applyTFilter_WF {tf : Option (List Bool)} {g : Grid} (hwf : g.WF) :
    (applyTFilter tf g).WF := by
  cases tf with
  | none => exact hwf
  | some tfl =>
    obtain ⟨h1, h2⟩ := hwf
    refine ⟨by simpa [applyTFilter] using h1, ?_⟩
    intro c hc
    simp only [applyTFilter, List.mem_map] at hc
    rcases hc with ⟨c0, hc0, rfl⟩
    simp only [applyTFilter, List.length_mapIdx]
    exact h2 c0 hc0

theorem appendTestResults_state (pm : PM) (g : Grid) (msg : String) (m : Nat)
    (ts : Bool) :
    (appendTestResults pm g msg m ts).df = pm.df ∧
    (appendTestResults pm g msg m ts).trans = pm.trans ∧
    (appendTestResults pm g msg m ts).tfilter = pm.tfilter := by
  unfold appendTestResults
  by_cases h : allPass (applyTFilter pm.tfilter g) = true
  · simp [h]
  · simp [h]

theorem appendTestResults_results (pm : PM) (g : Grid) (msg : String) (m : Nat)
    (ts : Bool) (hwf : (applyTFilter pm.tfilter g).WF) :
    (appendTestResults pm g msg m ts).test_results =
      pm.test_results ++ newResults (applyTFilter pm.tfilter g) msg m ts := by
  unfold appendTestResults
  by_cases h : allPass (applyTFilter pm.tfilter g) = true
  · simp only [h, if_true]
    rw [newResults_nil ((allPass_iff hwf).mp h)]
    simp
  · simp [h]

/-! ## Lemmas about `combine_first` and the translation registry -/

theorem mem_insNat (x y : Nat) (l : List Nat) : x ∈ insNat y l ↔ x = y ∨ x ∈ l := by
  induction l with
  | nil => simp [insNat]
  | cons z r ih =>
    unfold insNat
    by_cases h : z ≤ y
    · rw [if_pos h]
      simp only [List.mem_cons, ih]
      tauto
    · rw [if_neg h]
      simp only [List.mem_cons]

theorem mem_insStr (x y : String) (l : List String) : x ∈ insStr y l ↔ x = y ∨ x ∈ l := by
  induction l with
  | nil => simp [insStr]
  | cons z r ih =>
    unfold insStr
    by_cases h : strLtB y z = true
    · rw [if_pos h]
      simp only [List.mem_cons]
    · rw [if_neg h]
      simp only [List.mem_cons, ih]
      tauto

theorem mem_foldl_insNat (l : List Nat) : ∀ (acc : List Nat) (x : Nat),
    x ∈ l.foldl (fun acc z => insNat z acc) acc ↔ x ∈ acc ∨ x ∈ l := by
  induction l with
  | nil => simp
  | cons z r ih =>
    intro acc x
    simp only [List.foldl_cons, ih, mem_insNat, List.mem_cons]
    tauto

theorem mem_foldl_insStr (l : List String) : ∀ (acc : List String) (x : String),
    x ∈ l.foldl (fun acc z => insStr z acc) acc ↔ x ∈ acc ∨ x ∈ l := by
  induction l with
  | nil => simp
  | cons z r ih =>
    intro acc x
    simp only [List.foldl_cons, ih, mem_insStr, List.mem_cons]
    tauto

theorem mem_sortedNatUnion (a b : List Nat) (t : Nat) :
    t ∈ sortedNatUnion a b ↔ t ∈ a ∨ t ∈ b := by
  unfold sortedNatUnion
  rw [List.mem_dedup, mem_foldl_insNat]
  simp

theorem mem_sortedStrUnion (a b : List String) (c : String) :
    c ∈ sortedStrUnion a b ↔ c ∈ a ∨ c ∈ b := by
  unfold sortedStrUnion
  rw [List.mem_dedup, mem_foldl_insStr]
  simp

theorem cellAt_none_of_col_not_mem {df : DataFrame} {c : String}
    (h : c ∉ df.colNames) (t : Nat) : cellAt df t c = none := by
  unfold cellAt
  have : df.colNames.findIdx? (fun x => x == c) = none := by
    rw [List.findIdx?_eq_none_iff]
    intro x hx
    simp only [beq_eq_false_iff_ne]
    rintro rfl
    exact h hx
  rw [this]

theorem cellAt_none_of_idx_not_mem {df : DataFrame} {t : Nat}
    (h : t ∉ df.index) (c : String) : cellAt df t c = none := by
  unfold cellAt
  have h2 : df.index.findIdx? (fun x => x == t) = none := by
    rw [List.findIdx?_eq_none_iff]
    intro x hx
    simp only [beq_eq_false_iff_ne]
    rintro rfl
    exact h hx
  rw [h2]
  cases df.colNames.findIdx? (fun x => x == c) <;> rfl

theorem getD_map {α β : Type} (l : List α) (f : α → β) (i : Nat) (d : β)
    (h : i < l.length) : (l.map f).getD i d = f (l.get ⟨i, h⟩) := by
  rw [List.getD_eq_getElem _ _ (by simpa using h)]
  simp

theorem cellAt_mk (idx : List Nat) (names : List String)
    (cols : List (List (Option ℚ))) (t : Nat) (c : String) :
    cellAt ⟨idx, names, cols⟩ t c =
      (match names.findIdx? (fun x => x == c), idx.findIdx? (fun x => x == t) with
        | some ci, some ri => (cols.getD ci []).getD ri none
        | _, _ => none) := rfl

theorem combineFirst_cellAt (a b : DataFrame) (t : Nat) (c : String) :
    cellAt (combineFirst a b) t c = (cellAt a t c).or (cellAt b t c) := by
  rw [show combineFirst a b =
    ⟨sortedNatUnion a.index b.index, sortedStrUnion a.colNames b.colNames,
      (sortedStrUnion a.colNames b.colNames).map (fun n =>
        (sortedNatUnion a.index b.index).map
          (fun t2 => (cellAt a t2 n).or (cellAt b t2 n)))⟩ from rfl]
  rw [cellAt_mk]
  cases h1 : (sortedStrUnion a.colNames b.colNames).findIdx? (fun x => x == c) with
  | none =>
    rw [List.findIdx?_eq_none_iff] at h1
    have hca : c ∉ a.colNames := by
      intro hc
      have := h1 c ((mem_sortedStrUnion _ _ _).mpr (Or.inl hc))
      simp at this
    have hcb : c ∉ b.colNames := by
      intro hc
      have := h1 c ((mem_sortedStrUnion _ _ _).mpr (Or.inr hc))
      simp at this
    rw [cellAt_none_of_col_not_mem hca, cellAt_none_of_col_not_mem hcb]
    cases (sortedNatUnion a.index b.index).findIdx? (fun x => x == t) <;> rfl
  | some ci =>
    have h1' := h1
    rw [List.findIdx?_eq_some_iff_getElem] at h1'
    obtain ⟨hci, hgetc, _⟩ := h1'
    have hnamec : (sortedStrUnion a.colNames b.colNames).get ⟨ci, hci⟩ = c := by
      simpa using hgetc
    cases h2 : (sortedNatUnion a.index b.index).findIdx? (fun x => x == t) with
    | none =>
      rw [List.findIdx?_eq_none_iff] at h2
      have hta : t ∉ a.index := by
        intro ht
        have := h2 t ((mem_sortedNatUnion _ _ _).mpr (Or.inl ht))
        simp at this
      have htb : t ∉ b.index := by
        intro ht
        have := h2 t ((mem_sortedNatUnion _ _ _).mpr (Or.inr ht))
        simp at this
      rw [cellAt_none_of_idx_not_mem hta, cellAt_none_of_idx_not_mem htb]
      rfl
    | some ri =>
      have h2' := h2
      rw [List.findIdx?_eq_some_iff_getElem] at h2'
      obtain ⟨hri, hgett, _⟩ := h2'
      have hidxt : (sortedNatUnion a.index b.index).get ⟨ri, hri⟩ = t := by
        simpa using hgett
      simp only
      rw [getD_map _ _ _ _ hci, hnamec, getD_map _ _ _ _ hri, hidxt]

theorem lookupTrans_nil (k : String) : lookupTrans [] k = none := rfl

theorem lookupTrans_cons (p : String × List String)
    (tr : List (String × List String)) (k : String) :
    lookupTrans (p :: tr) k =
      if (p.1 == k) = true then some p.2 else lookupTrans tr k := by
  unfold lookupTrans
  rw [List.find?_cons]
  cases hp : (p.1 == k) with
  | true => simp [hp]
  | false => simp [hp]

theorem map_upsert_id {tr2 : List (String × List String)} {k : String}
    {v : List String} (ha : (tr2.any fun q => q.1 == k) = false) :
    tr2.map (fun p => if p.1 == k then (k, v) else p) = tr2 := by
  induction tr2 with
  | nil => rfl
  | cons q tr3 ih =>
    simp only [List.any_cons, Bool.or_eq_false_iff] at ha
    rw [List.map_cons, if_neg (by simp [ha.1]), ih ha.2]

theorem lookupTrans_transUpsert_self (tr : List (String × List String))
    (k : String) (v : List String) :
    lookupTrans (transUpsert tr k v) k = some v := by
  induction tr with
  | nil =>
    show lookupTrans ([] ++ [(k, v)]) k = some v
    rw [List.nil_append, lookupTrans_cons]
    simp
  | cons p tr2 ih =>
    unfold transUpsert
    cases hp : (p.1 == k) with
    | true =>
      rw [if_pos (by simp [List.any_cons, hp])]
      rw [List.map_cons, if_pos hp, lookupTrans_cons]
      simp
    | false =>
      cases ha : (tr2.any fun q => q.1 == k) with
      | true =>
        rw [if_pos (by simp [List.any_cons, hp, ha])]
        rw [List.map_cons, if_neg (by simp [hp]), lookupTrans_cons, if_neg (by simp [hp])]
        have h3 := ih
        unfold transUpsert at h3
        rw [if_pos ha] at h3
        exact h3
      | false =>
        rw [if_neg (by simp [List.any_cons, hp, ha])]
        rw [List.cons_append, lookupTrans_cons, if_neg (by simp [hp])]
        have h3 := ih
        unfold transUpsert at h3
        rw [if_neg (by simp [ha])] at h3
        exact h3

theorem lookupTrans_transUpsert_ne (tr : List (String × List String))
    (k k2 : String) (v : List String) (hne : k2 ≠ k) :
    lookupTrans (transUpsert tr k v) k2 = lookupTrans tr k2 := by
  have hkk2 : (k == k2) = false := by
    simp only [beq_eq_false_iff_ne, ne_eq]
    exact fun h => hne h.symm
  induction tr with
  | nil =>
    show lookupTrans ([] ++ [(k, v)]) k2 = lookupTrans [] k2
    rw [List.nil_append, lookupTrans_cons, if_neg (by simp [hkk2])]
  | cons p tr2 ih =>
    unfold transUpsert
    cases hp : (p.1 == k) with
    | true =>
      rw [if_pos (by simp [List.any_cons, hp])]
      have hpk : p.1 = k := by simpa using hp
      have hp2 : (p.1 == k2) = false := by
        simp only [beq_eq_false_iff_ne, ne_eq, hpk]
        exact fun h => hne h.symm
      rw [List.map_cons, if_pos hp, lookupTrans_cons, lookupTrans_cons]
      rw [if_neg (by simp [hkk2]), if_neg (by simp [hp2])]
      cases ha : (tr2.any fun q => q.1 == k) with
      | true =>
        have h3 := ih
        unfold transUpsert at h3
        rw [if_pos ha] at h3
        exact h3
      | false =>
        rw [map_upsert_id ha]
    | false =>
      cases ha : (tr2.any fun q => q.1 == k) with
      | true =>
        rw [if_pos (by simp [List.any_cons, hp, ha])]
        rw [List.map_cons, if_neg (by simp [hp]), lookupTrans_cons, lookupTrans_cons]
        cases hp2 : (p.1 == k2) with
        | true => rw [if_pos (by simp [hp2]), if_pos (by simp [hp2])]
        | false =>
          rw [if_neg (by simp [hp2]), if_neg (by simp [hp2])]
          have h3 := ih
          unfold transUpsert at h3
          rw [if_pos ha] at h3
          exact h3
      | false =>
        rw [if_neg (by simp [List.any_cons, hp, ha])]
        rw [List.cons_append, lookupTrans_cons, lookupTrans_cons]
        cases hp2 : (p.1 == k2) with
        | true => rw [if_pos (by simp [hp2]), if_pos (by simp [hp2])]
        | false =>
          rw [if_neg (by simp [hp2]), if_neg (by simp [hp2])]
          have h3 := ih
          unfold transUpsert at h3
          rw [if_neg (by simp [ha])] at h3
          exact h3

theorem lookupTrans_foldl_identity (L : List String) :
    ∀ (tr : List (String × List String)) (c : String),
    (c ∈ L ∨ lookupTrans tr c = some [c]) →
    lookupTrans (L.foldl (fun tr c2 => transUpsert tr c2 [c2]) tr) c = some [c] := by
  induction L with
  | nil =>
    intro tr c h
    rcases h with h | h
    · simp at h
    · simpa using h
  | cons k L2 ih =>
    intro tr c h
    simp only [List.foldl_cons]
    by_cases hc : c ∈ L2
    · exact ih _ c (Or.inl hc)
    · rcases h with h | h
      · rcases List.mem_cons.mp h with rfl | h2
        · exact ih _ c (Or.inr (lookupTrans_transUpsert_self tr c [c]))
        · exact absurd h2 hc
      · by_cases hck : c = k
        · subst hck
          exact ih _ c (Or.inr (lookupTrans_transUpsert_self tr c [c]))
        · refine ih _ c (Or.inr ?_)
          rw [lookupTrans_transUpsert_ne tr k c [k] hck]
          exact h

/-! ## Lemmas about `check_missing` -/

theorem setupData_congr {pm1 pm2 : PM} (h1 : pm1.df = pm2.df)
    (h2 : pm1.trans = pm2.trans) (key : Option String) :
    setupData pm1 key = setupData pm2 key := by
  unfold setupData
  rw [h1, h2]

theorem newResults_flag {g : Grid} {msg : String} {m : Nat} {ts : Bool}
    {r : TestResult} (h : r ∈ newResults g msg m ts) : r.errorFlag = msg := by
  unfold newResults at h
  rcases List.mem_flatMap.mp h with ⟨nc, _, hrc⟩
  exact (colResults_varName hrc).2

theorem checkMissing_eq_of_setup {pm : PM} {key : Option String} {m : Nat}
    {df : DataFrame} (hsd : setupData pm key = some df) :
    checkMissing pm key m =
      appendTestResults pm
        ((pm.test_results.filter (fun r => r.errorFlag == "Missing timestamp")).foldl
          (fun g r => forceRangeTrue g r.startTime r.endTime)
          { index := df.index, colNames := df.colNames
            cols := df.cols.map (fun c => c.map (fun v => v.isSome)) })
        "Missing data" m false := by
  unfold checkMissing
  rw [hsd]

theorem appendTestResults_cases (pm : PM) (g : Grid) (msg : String) (m : Nat)
    (ts : Bool) :
    (allPass (applyTFilter pm.tfilter g) = true ∧ appendTestResults pm g msg m ts = pm) ∨
    (allPass (applyTFilter pm.tfilter g) = false ∧
      (appendTestResults pm g msg m ts).test_results =
        pm.test_results ++ newResults (applyTFilter pm.tfilter g) msg m ts) := by
  unfold appendTestResults
  cases h : allPass (applyTFilter pm.tfilter g) with
  | true => left; exact ⟨rfl, by simp [h]⟩
  | false => right; exact ⟨rfl, by simp [h]⟩

/-! ## Claim theorems -/

/-- C2, counterexample: `add_dataframe` does NOT keep the existing value at a
colliding cell.  Adding a frame with value 1 at (t=0, "a") and then a frame
with value 2 at the same cell leaves 2 (the new data) in the merged Dataset,
because the source computes `data.combine_first(self.df)`. -/
theorem claim_C2_counterexample :
    cellAt (addDataframe (addDataframe PM.init ⟨[0], ["a"], [[some 1]]⟩)
        ⟨[0], ["a"], [[some 2]]⟩).df 0 "a" = some 2 ∧
    ¬ cellAt (addDataframe (addDataframe PM.init ⟨[0], ["a"], [[some 1]]⟩)
        ⟨[0], ["a"], [[some 2]]⟩).df 0 "a" = some 1 := by
  constructor
  · rfl
  · decide

/-- C2, amended: when `add_dataframe` merges a new DataFrame, each cell of
the merged Dataset takes the NEW data's value when it is present and
non-null, and falls back to the existing Dataset's value otherwise (so the
new data, not the existing data, wins on collision); and an identity
translation entry is registered for every column of the new data. -/
theorem claim_C2_amended (pm : PM) (d : DataFrame) :
    (∀ (t : Nat) (c : String),
      cellAt (addDataframe pm d).df t c = (cellAt d t c).or (cellAt pm.df t c)) ∧
    (∀ c ∈ d.colNames, lookupTrans (addDataframe pm d).trans c = some [c]) := by
  constructor
  · intro t c
    exact combineFirst_cellAt d pm.df t c
  · intro c hc
    exact lookupTrans_foldl_identity d.colNames pm.trans c (Or.inl hc)

/-- Witness for C2's amended theorem at a concrete engine and frame. -/
theorem claim_C2_amended_witness :
    cellAt (addDataframe PM.init ⟨[0], ["a"], [[some 3]]⟩).df 0 "a" =
      ((cellAt ⟨[0], ["a"], [[some 3]]⟩ 0 "a").or (cellAt PM.init.df 0 "a")) ∧
    lookupTrans (addDataframe PM.init ⟨[0], ["a"], [[some 3]]⟩).trans "a" = some ["a"] := by
  have h := claim_C2_amended PM.init ⟨[0], ["a"], [[some 3]]⟩
  exact ⟨h.1 0 "a", h.2 "a" (by simp)⟩

/-- C3, counterexample: `check_missing` is NOT idempotent.  On a Dataset with
one missing cell the first call appends one `Missing data` interval and the
second call appends the same interval again, so the result list grows from
one row to two. -/
theorem claim_C3_counterexample :
    (checkMissing (checkMissing ⟨⟨[0, 900], ["a"], [[some 1, none]]⟩,
        [("a", ["a"])], none, []⟩ none 1) none 1).test_results.length = 2 ∧
    (checkMissing ⟨⟨[0, 900], ["a"], [[some 1, none]]⟩,
        [("a", ["a"])], none, []⟩ none 1).test_results.length = 1 := by
  constructor
  · rfl
  · rfl

/-- C3, amended: a second `check_missing` call with no other mutation in
between appends exactly the same intervals the first call appended (one more
copy of each), rather than appending nothing: the result list after the
second call is the list after the first call followed again by the rows the
first call added.  In particular the second call is a no-op only when the
first call appended nothing. -/
theorem claim_C3_amended (pm : PM) (key : Option String) (m : Nat) :
    (checkMissing (checkMissing pm key m) key m).test_results =
      (checkMissing pm key m).test_results ++
        ((checkMissing pm key m).test_results.drop pm.test_results.length) := by
  cases hsd : setupData pm key with
  | none =>
    have h1 : checkMissing pm key m = pm := by
      unfold checkMissing
      rw [hsd]
    rw [h1, h1]
    simp [List.drop_length]
  | some df =>
    have hunfold : checkMissing pm key m =
        appendTestResults pm
          ((pm.test_results.filter (fun r => r.errorFlag == "Missing timestamp")).foldl
            (fun g r => forceRangeTrue g r.startTime r.endTime)
            { index := df.index, colNames := df.colNames
              cols := df.cols.map (fun c => c.map (fun v => v.isSome)) })
          "Missing data" m false := by
      unfold checkMissing
      rw [hsd]
    rcases appendTestResults_cases pm
      ((pm.test_results.filter (fun r => r.errorFlag == "Missing timestamp")).foldl
        (fun g r => forceRangeTrue g r.startTime r.endTime)
        { index := df.index, colNames := df.colNames
          cols := df.cols.map (fun c => c.map (fun v => v.isSome)) })
      "Missing data" m false with hcase | hcase
    · have hpm1 : checkMissing pm key m = pm := by
        rw [hunfold]
        exact hcase.2
      rw [hpm1, hpm1]
      simp [List.drop_length]
    · obtain ⟨hap, hres⟩ := hcase
      have hpm1res : (checkMissing pm key m).test_results = pm.test_results ++
          newResults (applyTFilter pm.tfilter
            ((pm.test_results.filter (fun r => r.errorFlag == "Missing timestamp")).foldl
              (fun g r => forceRangeTrue g r.startTime r.endTime)
              { index := df.index, colNames := df.colNames
                cols := df.cols.map (fun c => c.map (fun v => v.isSome)) }))
            "Missing data" m false := by
        rw [hunfold]
        exact hres
      have hdf1 : (checkMissing pm key m).df = pm.df := by
        rw [hunfold]
        exact (appendTestResults_state _ _ _ _ _).1
      have htr1 : (checkMissing pm key m).trans = pm.trans := by
        rw [hunfold]
        exact (appendTestResults_state _ _ _ _ _).2.1
      have htf1 : (checkMissing pm key m).tfilter = pm.tfilter := by
        rw [hunfold]
        exact (appendTestResults_state _ _ _ _ _).2.2
      have hsd1 : setupData (checkMissing pm key m) key = some df := by
        rw [setupData_congr hdf1 htr1 key, hsd]
      have hmtseq : (checkMissing pm key m).test_results.filter
          (fun r => r.errorFlag == "Missing timestamp") =
          pm.test_results.filter (fun r => r.errorFlag == "Missing timestamp") := by
        rw [hpm1res, List.filter_append]
        have hnil : (newResults (applyTFilter pm.tfilter
            ((pm.test_results.filter (fun r => r.errorFlag == "Missing timestamp")).foldl
              (fun g r => forceRangeTrue g r.startTime r.endTime)
              { index := df.index, colNames := df.colNames
                cols := df.cols.map (fun c => c.map (fun v => v.isSome)) }))
            "Missing data" m false).filter (fun r => r.errorFlag == "Missing timestamp") = [] := by
          rw [List.filter_eq_nil_iff]
          intro r hr
          rw [newResults_flag hr]
          decide
        rw [hnil, List.append_nil]
      have hunfold2 : checkMissing (checkMissing pm key m) key m =
          appendTestResults (checkMissing pm key m)
            ((pm.test_results.filter (fun r => r.errorFlag == "Missing timestamp")).foldl
              (fun g r => forceRangeTrue g r.startTime r.endTime)
              { index := df.index, colNames := df.colNames
                cols := df.cols.map (fun c => c.map (fun v => v.isSome)) })
            "Missing data" m false := by
        rw [checkMissing_eq_of_setup hsd1, hmtseq]
      rw [hunfold2]
      rcases appendTestResults_cases (checkMissing pm key m)
        ((pm.test_results.filter (fun r => r.errorFlag == "Missing timestamp")).foldl
          (fun g r => forceRangeTrue g r.startTime r.endTime)
          { index := df.index, colNames := df.colNames
            cols := df.cols.map (fun c => c.map (fun v => v.isSome)) })
        "Missing data" m false with hcase2 | hcase2
      · rw [htf1] at hcase2
        rw [hcase2.1] at hap
        simp at hap
      · rw [hcase2.2, htf1, hpm1res]
        congr 1
        rw [List.drop_left]

theorem pairwise_le_getD {idx : List Nat} (h : List.Pairwise (· < ·) idx)
    {i j : Nat} (hij : i ≤ j) (hj : j < idx.length) :
    idx.getD i 0 ≤ idx.getD j 0 := by
  rcases Nat.lt_or_ge i j with h2 | h2
  · exact Nat.le_of_lt (pairwise_lt_getD h h2 hj)
  · have : i = j := by omega
    rw [this]

theorem mapIdx_allTrue {c : List Bool} {f : Nat → Bool → Bool}
    (hf : ∀ i b, b = true → f i b = true) (h : ∀ b ∈ c, b = true) :
    ∀ b ∈ c.mapIdx f, b = true := by
  induction c generalizing f with
  | nil => simp
  | cons x xs ih =>
    intro b hb
    rw [List.mapIdx_cons] at hb
    rcases List.mem_cons.mp hb with rfl | hb
    · exact hf 0 x (h x (by simp))
    · exact ih (fun i b hb2 => hf (i + 1) b hb2)
        (fun b2 hb2 => h b2 (List.mem_cons_of_mem _ hb2)) b hb

theorem applyTFilter_allTrue {tf : Option (List Bool)} {g : Grid}
    (h : ∀ c ∈ g.cols, ∀ b ∈ c, b = true) :
    ∀ c ∈ (applyTFilter tf g).cols, ∀ b ∈ c, b = true := by
  cases tf with
  | none => exact h
  | some tfl =>
    intro c hc
    simp only [applyTFilter, List.mem_map] at hc
    rcases hc with ⟨c0, hc0, rfl⟩
    exact mapIdx_allTrue (fun i b hb => by simp [hb]) (h c0 hc0)

theorem appendTestResults_allTrue (pm : PM) (g : Grid) (msg : String) (m : Nat)
    (ts : Bool) (hwf : g.WF) (h : ∀ c ∈ g.cols, ∀ b ∈ c, b = true) :
    appendTestResults pm g msg m ts = pm := by
  unfold appendTestResults
  rw [if_pos ((allPass_iff (applyTFilter_WF hwf)).mpr (applyTFilter_allTrue h))]

/-- C1: the interval extractor turns each boolean pass/fail column into
exactly the set of its maximal contiguous runs of False cells of length at
least `min_failures`: (i) every such run yields the interval with start/end
timestamps of its first/last False cell and timestep count the run length;
(ii) every extracted interval arises from such a run; (iii) no interval is
reported twice; (iv) an all-True column yields no interval and an all-True
grid leaves the engine unchanged; (v) with no time filter the appended rows
are exactly the per-column extractions in column order; (vi) round trip:
re-marking a fresh all-True column False over each reported interval flags
position `j` exactly when `j` lies in a maximal False run of length ≥ m (the
input with sub-threshold runs removed); (vii) a single failing row yields one
one-timestep interval at `min_failures = 1` and none at `min_failures = 2`. -/
theorem claim_C1 (idx : List Nat) (n : String) (c : List Bool) (msg : String)
    (m : Nat) (hmono : List.Pairwise (· < ·) idx) (hlen : c.length = idx.length)
    (_hm : 1 ≤ m) :
    (∀ s e, isMaxRun (c.map not) s e → m ≤ e - s + 1 →
      ({ varName := n, startTime := idx.getD s 0, endTime := idx.getD e 0,
         timesteps := e - s + 1, errorFlag := msg } : TestResult) ∈
        colResults idx n c msg m) ∧
    (∀ r ∈ colResults idx n c msg m, ∃ s e, isMaxRun (c.map not) s e ∧
      m ≤ e - s + 1 ∧
      r = { varName := n, startTime := idx.getD s 0, endTime := idx.getD e 0,
            timesteps := e - s + 1, errorFlag := msg }) ∧
    (colResults idx n c msg m).Nodup ∧
    ((∀ b ∈ c, b = true) → colResults idx n c msg m = []) ∧
    (∀ (pm : PM) (g : Grid) (msg2 : String) (m2 : Nat) (ts2 : Bool), g.WF →
      (∀ col ∈ g.cols, ∀ b ∈ col, b = true) →
      appendTestResults pm g msg2 m2 ts2 = pm) ∧
    (∀ (pm : PM) (g : Grid) (msg2 : String) (m2 : Nat), pm.tfilter = none →
      g.WF →
      (appendTestResults pm g msg2 m2 false).test_results = pm.test_results ++
        (g.colNames.zip g.cols).flatMap
          (fun nc => colResults g.index nc.1 nc.2 msg2 m2)) ∧
    (∀ j, j < c.length →
      (((colResults idx n c msg m).any (fun r =>
          decide (r.startTime ≤ idx.getD j 0 ∧ idx.getD j 0 ≤ r.endTime))) = true ↔
        ∃ s e, isMaxRun (c.map not) s e ∧ m ≤ e - s + 1 ∧ s ≤ j ∧ j ≤ e)) ∧
    (∀ (t : Nat) (n2 msg2 : String),
      colResults [t] n2 [false] msg2 1 =
        [{ varName := n2, startTime := t, endTime := t, timesteps := 1,
           errorFlag := msg2 }] ∧
      colResults [t] n2 [false] msg2 2 = [] ∧
      colResults [t] n2 [true] msg2 1 = []) := by
  refine ⟨?_, ?_, ?_, ?_, ?_, ?_, ?_, ?_⟩
  · intro s e hrun hm2
    exact (colResults_mem idx n c msg m _).mpr ⟨s, e, hrun, hm2, rfl⟩
  · intro r hr
    exact (colResults_mem idx n c msg m r).mp hr
  · exact colResults_nodup idx n c msg m hmono hlen
  · intro h
    exact colResults_nil_of_allTrue h
  · intro pm g msg2 m2 ts2 hwf h
    exact appendTestResults_allTrue pm g msg2 m2 ts2 hwf h
  · intro pm g msg2 m2 htf hwf
    have h1 := appendTestResults_results pm g msg2 m2 false
      (by rw [htf]; exact hwf)
    rw [htf] at h1
    exact h1
  · intro j hj
    constructor
    · intro h
      rcases List.any_eq_true.mp h with ⟨r, hr, hcov⟩
      rcases (colResults_mem idx n c msg m r).mp hr with ⟨s, e, hrun, hm2, rfl⟩
      simp only [decide_eq_true_eq] at hcov
      have hse := hrun.1
      have he : e < c.length := by
        have := hrun.2.1
        rw [List.length_map] at this
        exact this
      refine ⟨s, e, hrun, hm2, ?_, ?_⟩
      · by_contra hcon
        have : idx.getD j 0 < idx.getD s 0 :=
          pairwise_lt_getD hmono (by omega) (by omega)
        omega
      · by_contra hcon
        have : idx.getD e 0 < idx.getD j 0 :=
          pairwise_lt_getD hmono (by omega) (by omega)
        omega
    · rintro ⟨s, e, hrun, hm2, hsj, hje⟩
      refine List.any_eq_true.mpr
        ⟨{ varName := n, startTime := idx.getD s 0, endTime := idx.getD e 0,
           timesteps := e - s + 1, errorFlag := msg },
         (colResults_mem idx n c msg m _).mpr ⟨s, e, hrun, hm2, rfl⟩, ?_⟩
      have he : e < idx.length := by
        have := hrun.2.1
        rw [List.length_map] at this
        omega
      simp only [decide_eq_true_eq]
      exact ⟨pairwise_le_getD hmono hsj (by omega),
        pairwise_le_getD hmono hje he⟩
  · intro t n2 msg2
    exact ⟨rfl, rfl, rfl⟩

/-- Witness for C1 at the grid column [False, False, True] over index
[0, 1, 2] with `min_failures = 1`. -/
theorem claim_C1_witness :
    (List.Pairwise (· < ·) [0, 1, 2] ∧ ([false, false, true] : List Bool).length =
      ([0, 1, 2] : List Nat).length ∧ 1 ≤ 1) ∧
    (∀ r ∈ colResults [0, 1, 2] "x" [false, false, true] "err" 1,
      ∃ s e, isMaxRun ([false, false, true].map not) s e ∧ 1 ≤ e - s + 1 ∧
        r = { varName := "x", startTime := [0, 1, 2].getD s 0,
              endTime := [0, 1, 2].getD e 0, timesteps := e - s + 1,
              errorFlag := "err" }) := by
  have h := claim_C1 [0, 1, 2] "x" [false, false, true] "err" 1
    (by decide) (by decide) (by decide)
  exact ⟨⟨by decide, by decide, by decide⟩, h.2.1⟩

theorem applyTFilter_cell_excluded (tfl : List Bool) (c : List Bool) (j : Nat)
    (hj : tfl.getD j true = false) :
    (c.mapIdx (fun i b => if tfl.getD i true then b else true)).getD j true = true := by
  rcases Nat.lt_or_ge j c.length with h | h
  · rw [getD_mapIdx c _ j true h, hj]
    simp
  · exact getD_mapIdx_oob c _ j true h

theorem applyTFilter_cell_false (tfl : List Bool) (c : List Bool) (j : Nat)
    (h : (c.mapIdx (fun i b => if tfl.getD i true then b else true)).getD j true = false) :
    c.getD j true = false := by
  rcases Nat.lt_or_ge j c.length with hlt | hge
  · rw [getD_mapIdx c _ j true hlt] at h
    by_cases htf : tfl.getD j true = true
    · rw [if_pos htf] at h
      rw [List.getD_eq_getElem c true hlt]
      simpa using h
    · rw [if_neg htf] at h
      simp at h
  · rw [getD_mapIdx_oob c _ j true hge] at h
    simp at h

/-- C7: with a non-empty time filter on the engine, every grid handed to
`_append_test_results` is forced to pass at every excluded row before runs
are extracted, and consequently no appended failure interval covers the
timestamp of an excluded row — in particular no appended interval starts or
ends at an excluded timestamp (its start and end are covered timestamps of
its own span). -/
theorem claim_C7 (pm : PM) (g : Grid) (msg : String) (m : Nat) (ts : Bool)
    (tf : List Bool) (htf : pm.tfilter = some tf) (hwf : g.WF)
    (hmono : List.Pairwise (· < ·) g.index) :
    (∀ cj j, tf.getD j true = false →
      ((applyTFilter pm.tfilter g).cols.getD cj []).getD j true = true) ∧
    (∀ r ∈ (appendTestResults pm g msg m ts).test_results.drop
        pm.test_results.length,
      ∀ j, j < g.index.length → tf.getD j true = false →
        ¬ (r.startTime ≤ g.index.getD j 0 ∧ g.index.getD j 0 ≤ r.endTime)) := by
  constructor
  · intro cj j hj
    rw [htf]
    rcases Nat.lt_or_ge cj g.cols.length with hcj | hcj
    · have : (applyTFilter (some tf) g).cols.getD cj [] =
          (g.cols.getD cj []).mapIdx (fun i b => if tf.getD i true then b else true) := by
        simp only [applyTFilter]
        rw [getD_map _ _ _ _ hcj]
        rw [List.getD_eq_getElem g.cols [] hcj]
        simp
      rw [this]
      exact applyTFilter_cell_excluded tf _ j hj
    · have : (applyTFilter (some tf) g).cols.getD cj [] = [] := by
        apply List.getD_eq_default
        simpa [applyTFilter] using hcj
      rw [this]
      rfl
  · intro r hr j hjlen hjex hcov
    rcases appendTestResults_cases pm g msg m ts with hcase | hcase
    · rw [hcase.2] at hr
      rw [List.drop_length] at hr
      simp at hr
    · rw [hcase.2, List.drop_left] at hr
      unfold newResults at hr
      rcases List.mem_flatMap.mp hr with ⟨nc, hnc, hrc⟩
      have hc : nc.2 ∈ (applyTFilter pm.tfilter g).cols := (List.of_mem_zip hnc).2
      have hidx : (applyTFilter pm.tfilter g).index = g.index := by
        cases h : pm.tfilter <;> simp [applyTFilter]
      have hlen2 : nc.2.length = g.index.length := by
        have := (applyTFilter_WF hwf).2 nc.2 hc
        rw [hidx] at this
        exact this
      have hrc2 : r ∈ colResults g.index nc.1 nc.2 msg m := by
        rw [← hidx]
        exact hrc
      have hfail : nc.2.getD j true = false :=
        colResults_cover_fail hmono hlen2 hrc2 hjlen hcov.1 hcov.2
      rw [htf] at hc
      simp only [applyTFilter, List.mem_map] at hc
      rcases hc with ⟨c0, hc0, heq⟩
      rw [← heq] at hfail
      have hcell := applyTFilter_cell_excluded tf c0 j hjex
      rw [hcell] at hfail
      simp at hfail

/-- Witness for C7 at a concrete engine whose filter excludes the second row
of a 2-row grid. -/
theorem claim_C7_witness :
    ((⟨⟨[0, 900], ["a"], [[some 1, some 2]]⟩, [("a", ["a"])], some [true, false],
        []⟩ : PM).tfilter = some [true, false] ∧
      Grid.WF ⟨[0, 900], ["a"], [[false, false]]⟩ ∧
      List.Pairwise (· < ·) [0, 900]) ∧
    (∀ r ∈ (appendTestResults
        ⟨⟨[0, 900], ["a"], [[some 1, some 2]]⟩, [("a", ["a"])], some [true, false], []⟩
        ⟨[0, 900], ["a"], [[false, false]]⟩ "err" 1 false).test_results.drop 0,
      ∀ j, j < ([0, 900] : List Nat).length → [true, false].getD j true = false →
        ¬ (r.startTime ≤ [0, 900].getD j 0 ∧ [0, 900].getD j 0 ≤ r.endTime)) := by
  have h := claim_C7
    ⟨⟨[0, 900], ["a"], [[some 1, some 2]]⟩, [("a", ["a"])], some [true, false], []⟩
    ⟨[0, 900], ["a"], [[false, false]]⟩ "err" 1 false [true, false]
    rfl (by constructor <;> simp) (by decide)
  exact ⟨⟨rfl, by constructor <;> simp, by decide⟩, h.2⟩

theorem contains_findIdx_some {l : List String} {n : String}
    (h : l.contains n = true) :
    ∃ i, l.findIdx? (fun x => x == n) = some i := by
  cases hf : l.findIdx? (fun x => x == n) with
  | some i => exact ⟨i, rfl⟩
  | none =>
    rw [List.findIdx?_eq_none_iff] at hf
    have := hf n (by simpa using h)
    simp at this

theorem setupData_props {pm : PM} {key : Option String} {df : DataFrame}
    (hsd : setupData pm key = some df) (hwf : pm.df.WF) :
    df.index = pm.df.index ∧ df.WF := by
  unfold setupData at hsd
  by_cases hemp : pm.df.index = [] ∨ pm.df.colNames = []
  · rw [if_pos hemp] at hsd
    simp at hsd
  · rw [if_neg hemp] at hsd
    cases key with
    | none =>
      injection hsd with hdf
      rw [← hdf]
      exact ⟨rfl, hwf⟩
    | some k =>
      replace hsd : (match lookupTrans pm.trans k with
        | none => none
        | some names =>
          if (names.all fun n => pm.df.colNames.contains n) = true then
            some ({ index := pm.df.index, colNames := names,
                    cols := List.map (colOf pm.df) names } : DataFrame)
          else none) = some df := hsd
      cases hlk : lookupTrans pm.trans k with
      | none => rw [hlk] at hsd; simp at hsd
      | some names =>
        rw [hlk] at hsd
        replace hsd : (if (names.all fun n => pm.df.colNames.contains n) = true then
            some ({ index := pm.df.index, colNames := names,
                    cols := List.map (colOf pm.df) names } : DataFrame)
          else none) = some df := hsd
        by_cases hall : names.all (fun n => pm.df.colNames.contains n) = true
        · rw [if_pos hall] at hsd
          injection hsd with hdf
          rw [← hdf]
          refine ⟨rfl, by simp, ?_⟩
          intro c hc
          simp only [List.mem_map] at hc
          rcases hc with ⟨n, hn, rfl⟩
          have hcont : pm.df.colNames.contains n = true :=
            List.all_eq_true.mp hall n hn
          rcases contains_findIdx_some hcont with ⟨i, hi⟩
          have hilt : i < pm.df.colNames.length := by
            rw [List.findIdx?_eq_some_iff_getElem] at hi
            exact hi.1
          have hilt2 : i < pm.df.cols.length := by
            rw [hwf.1]; exact hilt
          unfold colOf
          rw [hi]
          show (pm.df.cols.getD i []).length = pm.df.index.length
          rw [List.getD_eq_getElem pm.df.cols [] hilt2]
          exact hwf.2 _ (List.getElem_mem _)
        · rw [if_neg hall] at hsd
          simp at hsd

theorem getD_mem {α : Type} (l : List α) (i : Nat) (d : α) (h : i < l.length) :
    l.getD i d ∈ l := by
  rw [List.getD_eq_getElem l d h]
  exact List.getElem_mem _

theorem mem_zip_exists_idx {α β : Type} {l1 : List α} {l2 : List β}
    {x : α × β} (h : x ∈ l1.zip l2) (d1 : α) (d2 : β) :
    ∃ i, i < l1.length ∧ i < l2.length ∧ l1.getD i d1 = x.1 ∧ l2.getD i d2 = x.2 := by
  rcases List.mem_iff_getElem.mp h with ⟨i, hi, hx⟩
  have hi1 : i < l1.length := by rw [List.length_zip] at hi; omega
  have hi2 : i < l2.length := by rw [List.length_zip] at hi; omega
  refine ⟨i, hi1, hi2, ?_, ?_⟩
  · rw [List.getD_eq_getElem _ _ hi1]
    rw [List.getElem_zip] at hx
    exact congrArg Prod.fst hx
  · rw [List.getD_eq_getElem _ _ hi2]
    rw [List.getElem_zip] at hx
    exact congrArg Prod.snd hx

theorem applyTFilter_col_getD (tfl : List Bool) (g : Grid) (i : Nat)
    (hi : i < g.cols.length) :
    (applyTFilter (some tfl) g).cols.getD i [] =
      (g.cols.getD i []).mapIdx (fun i2 b => if tfl.getD i2 true then b else true) := by
  simp only [applyTFilter]
  rw [getD_map _ _ _ _ hi]
  rw [List.getD_eq_getElem g.cols [] hi]
  simp

theorem applyTFilter_getD_false {tf : Option (List Bool)} {g : Grid}
    {i j : Nat} (hi : i < g.cols.length)
    (h : ((applyTFilter tf g).cols.getD i []).getD j true = false) :
    (g.cols.getD i []).getD j true = false := by
  cases tf with
  | none => exact h
  | some tfl =>
    rw [applyTFilter_col_getD tfl g i hi] at h
    exact applyTFilter_cell_false tfl _ j h

theorem diffCol_none {c : List (Option ℚ)} {k : Nat} {absV : Bool} {j : Nat}
    (hj : j < c.length) (h : c.getD j none = none) :
    (diffCol c k absV).getD j none = none := by
  unfold diffCol
  rw [getD_mapIdx c _ j none hj]
  by_cases hk : j < k
  · rw [if_pos hk]
  · rw [if_neg hk]
    rw [h]

theorem generateTestResults_mem {pm : PM} {df : DataFrame}
    {lower upper : Option ℚ} {m : Nat} {pre : String} {r : TestResult}
    (hr : r ∈ (generateTestResults pm df lower upper m pre).test_results.drop
      pm.test_results.length) :
    (∃ lo, lower = some lo ∧
      r ∈ newResults (applyTFilter pm.tfilter (maskOfGrid df (fun v => !(ltBnd v lo))))
        (pre ++ " < lower bound, " ++ toString lo) m false) ∨
    (∃ hi, upper = some hi ∧
      r ∈ newResults (applyTFilter pm.tfilter (maskOfGrid df (fun v => !(gtBnd v hi))))
        (pre ++ " > upper bound, " ++ toString hi) m false) := by
  cases lower with
  | none =>
    cases upper with
    | none =>
      replace hr : r ∈ pm.test_results.drop pm.test_results.length := hr
      rw [List.drop_length] at hr
      simp at hr
    | some hi =>
      replace hr : r ∈ (appendTestResults pm (maskOfGrid df (fun v => !(gtBnd v hi)))
          (pre ++ " > upper bound, " ++ toString hi) m false).test_results.drop
            pm.test_results.length := hr
      rcases appendTestResults_cases pm (maskOfGrid df (fun v => !(gtBnd v hi)))
        (pre ++ " > upper bound, " ++ toString hi) m false with hc | hc
      · rw [hc.2] at hr
        rw [List.drop_length] at hr
        simp at hr
      · rw [hc.2, List.drop_left] at hr
        exact Or.inr ⟨hi, rfl, hr⟩
  | some lo =>
    cases upper with
    | none =>
      replace hr : r ∈ (appendTestResults pm (maskOfGrid df (fun v => !(ltBnd v lo)))
          (pre ++ " < lower bound, " ++ toString lo) m false).test_results.drop
            pm.test_results.length := hr
      rcases appendTestResults_cases pm (maskOfGrid df (fun v => !(ltBnd v lo)))
        (pre ++ " < lower bound, " ++ toString lo) m false with hc1 | hc1
      · rw [hc1.2] at hr
        rw [List.drop_length] at hr
        simp at hr
      · rw [hc1.2, List.drop_left] at hr
        exact Or.inl ⟨lo, rfl, hr⟩
    | some hi =>
      replace hr : r ∈ (appendTestResults
          (appendTestResults pm (maskOfGrid df (fun v => !(ltBnd v lo)))
            (pre ++ " < lower bound, " ++ toString lo) m false)
          (maskOfGrid df (fun v => !(gtBnd v hi)))
          (pre ++ " > upper bound, " ++ toString hi) m false).test_results.drop
            pm.test_results.length := hr
      rcases appendTestResults_cases pm (maskOfGrid df (fun v => !(ltBnd v lo)))
        (pre ++ " < lower bound, " ++ toString lo) m false with hc1 | hc1
      · rw [hc1.2] at hr
        rcases appendTestResults_cases pm (maskOfGrid df (fun v => !(gtBnd v hi)))
          (pre ++ " > upper bound, " ++ toString hi) m false with hc2 | hc2
        · rw [hc2.2] at hr
          rw [List.drop_length] at hr
          simp at hr
        · rw [hc2.2, List.drop_left] at hr
          exact Or.inr ⟨hi, rfl, hr⟩
      · have htf1 := (appendTestResults_state pm (maskOfGrid df (fun v => !(ltBnd v lo)))
          (pre ++ " < lower bound, " ++ toString lo) m false).2.2
        rcases appendTestResults_cases
          (appendTestResults pm (maskOfGrid df (fun v => !(ltBnd v lo)))
            (pre ++ " < lower bound, " ++ toString lo) m false)
          (maskOfGrid df (fun v => !(gtBnd v hi)))
          (pre ++ " > upper bound, " ++ toString hi) m false with hc2 | hc2
        · rw [hc2.2, hc1.2, List.drop_left] at hr
          exact Or.inl ⟨lo, rfl, hr⟩
        · rw [hc2.2, hc1.2, htf1] at hr
          rw [List.append_assoc, List.drop_left] at hr
          rcases List.mem_append.mp hr with hr2 | hr2
          · exact Or.inl ⟨lo, rfl, hr2⟩
          · exact Or.inr ⟨hi, rfl, hr2⟩

theorem maskOf_interval_has_value {pm : PM} {df : DataFrame}
    {pass : Option ℚ → Bool} {msg : String} {m : Nat} {r : TestResult}
    (hpassnone : pass none = true)
    (hdfwf : df.WF) (hmono : List.Pairwise (· < ·) df.index)
    (hr : r ∈ newResults (applyTFilter pm.tfilter (maskOfGrid df pass)) msg m false) :
    ∃ ci, ci < df.cols.length ∧ df.colNames.getD ci "" = r.varName ∧
      ∀ j, j < df.index.length →
        (df.cols.getD ci []).getD j none = none →
        ¬ (r.startTime ≤ df.index.getD j 0 ∧ df.index.getD j 0 ≤ r.endTime) := by
  unfold newResults at hr
  rcases List.mem_flatMap.mp hr with ⟨nc, hnc, hrc⟩
  simp only [Bool.false_eq_true, if_false] at hnc
  rcases mem_zip_exists_idx hnc "" [] with ⟨ci, hci1, hci2, hname, hcol⟩
  have hcols_len : (applyTFilter pm.tfilter (maskOfGrid df pass)).cols.length =
      df.cols.length := by
    cases htf : pm.tfilter <;> simp [applyTFilter, maskOfGrid]
  have hciD : ci < df.cols.length := by
    rw [hcols_len] at hci2
    exact hci2
  refine ⟨ci, hciD, ?_, ?_⟩
  · have hvar := (colResults_varName hrc).1
    have hnames : (applyTFilter pm.tfilter (maskOfGrid df pass)).colNames =
        df.colNames := by
      cases htf : pm.tfilter <;> simp [applyTFilter, maskOfGrid]
    rw [hvar, ← hnames]
    exact hname
  intro j hj hnone hcov
  have hidx : (applyTFilter pm.tfilter (maskOfGrid df pass)).index = df.index := by
    cases htf : pm.tfilter <;> simp [applyTFilter, maskOfGrid]
  have hcollen : nc.2.length = df.index.length := by
    have h1 := (@applyTFilter_WF pm.tfilter
      (maskOfGrid df pass) ⟨?_, ?_⟩).2 nc.2 ?_
    · rw [hidx] at h1
      exact h1
    · simp [maskOfGrid]
      rw [hdfwf.1]
    · intro c hc
      simp only [maskOfGrid, List.mem_map] at hc
      rcases hc with ⟨c0, hc0, rfl⟩
      simp only [List.length_map, maskOfGrid]
      exact hdfwf.2 c0 hc0
    · rw [← hcol]
      exact getD_mem _ _ _ hci2
  have hrc2 : r ∈ colResults df.index nc.1 nc.2 msg m := by
    rw [← hidx]
    exact hrc
  have hfail : nc.2.getD j true = false :=
    colResults_cover_fail hmono hcollen hrc2 hj hcov.1 hcov.2
  rw [← hcol] at hfail
  have hfail2 : ((maskOfGrid df pass).cols.getD ci []).getD j true = false := by
    refine applyTFilter_getD_false ?_ hfail
    simp only [maskOfGrid, List.length_map]
    exact hciD
  have hcolmask : (maskOfGrid df pass).cols.getD ci [] =
      (df.cols.getD ci []).map pass := by
    simp only [maskOfGrid]
    rw [getD_map _ _ _ _ hciD]
    rw [List.getD_eq_getElem df.cols [] hciD]
    rfl
  rw [hcolmask] at hfail2
  have hjc : j < (df.cols.getD ci []).length := by
    have := hdfwf.2 _ (getD_mem df.cols ci [] hciD)
    omega
  rw [getD_map _ _ _ _ hjc] at hfail2
  rw [List.getD_eq_getElem _ _ hjc] at hnone
  simp only [List.get_eq_getElem] at hfail2
  rw [hnone, hpassnone] at hfail2
  simp at hfail2

/-- C10: cells whose value is missing are never reported as failing by
`check_range` or (for its own row) by `check_increment`: the pass masks are
`~(value < lower)` and `~(value > upper)`, comparisons against NaN are
False, so missing cells pass, and consequently every appended interval comes
from a tested column CARRYING THE INTERVAL'S OWN VARIABLE NAME in which
every row the interval covers holds a present value — a missing cell of the
reported column never lies inside a reported failure interval. -/
theorem claim_C10 (pm : PM) (lower upper : Option ℚ) (key : Option String)
    (m k : Nat) (absV : Bool) (df : DataFrame)
    (hsd : setupData pm key = some df) (hwf : pm.df.WF)
    (hmono : List.Pairwise (· < ·) pm.df.index) :
    (∀ lo, ltBnd none lo = false ∧ gtBnd none lo = false) ∧
    (∀ r ∈ (checkRange pm lower upper key m).test_results.drop
        pm.test_results.length,
      ∃ ci, ci < df.cols.length ∧ df.colNames.getD ci "" = r.varName ∧
        ∀ j, j < df.index.length →
          (df.cols.getD ci []).getD j none = none →
          ¬ (r.startTime ≤ df.index.getD j 0 ∧ df.index.getD j 0 ≤ r.endTime)) ∧
    (∀ pm2, checkIncrement pm lower upper key k absV m = .ok pm2 →
      ∀ r ∈ pm2.test_results.drop pm.test_results.length,
        ∃ ci, ci < df.cols.length ∧ df.colNames.getD ci "" = r.varName ∧
          ∀ j, j < df.index.length →
            (df.cols.getD ci []).getD j none = none →
            ¬ (r.startTime ≤ df.index.getD j 0 ∧ df.index.getD j 0 ≤ r.endTime)) := by
  obtain ⟨hidx, hdfwf⟩ := setupData_props hsd hwf
  have hmono2 : List.Pairwise (· < ·) df.index := by rw [hidx]; exact hmono
  refine ⟨fun lo => ⟨rfl, rfl⟩, ?_, ?_⟩
  · intro r hr
    have hr2 : r ∈ (generateTestResults pm df lower upper m "Data").test_results.drop
        pm.test_results.length := by
      unfold checkRange at hr
      rw [hsd] at hr
      exact hr
    rcases generateTestResults_mem hr2 with ⟨lo, _, hmem⟩ | ⟨hi, _, hmem⟩
    · exact maskOf_interval_has_value (by rfl) hdfwf hmono2 hmem
    · exact maskOf_interval_has_value (by rfl) hdfwf hmono2 hmem
  · intro pm2 hok r hr
    unfold checkIncrement at hok
    rw [hsd] at hok
    replace hok : (if (df.cols.all fun c => c.all fun v => v.isNone) = true then
        (match key with
          | none => (Except.error
              "TypeError: can only concatenate str (not NoneType) to str" :
                Except String PM)
          | some _ => Except.ok pm)
      else Except.ok (generateTestResults pm
        { index := df.index, colNames := df.colNames,
          cols := List.map (fun c => diffCol c k absV) df.cols }
        lower upper m (if absV = true then "|Increment|" else "Increment"))) =
          Except.ok pm2 := hok
    by_cases hnull : (df.cols.all (fun c => c.all (fun v => v.isNone))) = true
    · rw [if_pos hnull] at hok
      cases key with
      | none => simp at hok
      | some k2 =>
        injection hok with hok
        rw [← hok] at hr
        rw [List.drop_length] at hr
        simp at hr
    · rw [if_neg hnull] at hok
      injection hok with hok
      rw [← hok] at hr
      have hdiffwf : DataFrame.WF
          { df with cols := df.cols.map (fun c => diffCol c k absV) } := by
        refine ⟨by simpa using hdfwf.1, ?_⟩
        intro c hc
        simp only [List.mem_map] at hc
        rcases hc with ⟨c0, hc0, rfl⟩
        unfold diffCol
        rw [List.length_mapIdx]
        exact hdfwf.2 c0 hc0
      rcases generateTestResults_mem hr with ⟨lo, _, hmem⟩ | ⟨hi, _, hmem⟩
      · rcases maskOf_interval_has_value (by rfl) hdiffwf hmono2 hmem with
          ⟨ci, hci, hvarname, hprop⟩
        refine ⟨ci, by simpa using hci, hvarname, ?_⟩
        intro j hj hnone
        refine hprop j hj ?_
        have hci2 : ci < df.cols.length := by simpa using hci
        have hcold : ({ df with cols := df.cols.map (fun c => diffCol c k absV) } :
            DataFrame).cols.getD ci [] = diffCol (df.cols.getD ci []) k absV := by
          simp only
          rw [getD_map _ _ _ _ hci2, List.getD_eq_getElem df.cols [] hci2]
          rfl
        rw [hcold]
        refine diffCol_none ?_ hnone
        have := hdfwf.2 _ (getD_mem df.cols ci [] hci2)
        omega
      · rcases maskOf_interval_has_value (by rfl) hdiffwf hmono2 hmem with
          ⟨ci, hci, hvarname, hprop⟩
        refine ⟨ci, by simpa using hci, hvarname, ?_⟩
        intro j hj hnone
        refine hprop j hj ?_
        have hci2 : ci < df.cols.length := by simpa using hci
        have hcold : ({ df with cols := df.cols.map (fun c => diffCol c k absV) } :
            DataFrame).cols.getD ci [] = diffCol (df.cols.getD ci []) k absV := by
          simp only
          rw [getD_map _ _ _ _ hci2, List.getD_eq_getElem df.cols [] hci2]
          rfl
        rw [hcold]
        refine diffCol_none ?_ hnone
        have := hdfwf.2 _ (getD_mem df.cols ci [] hci2)
        omega

/-- Witness for C10 at a 2-row single-column Dataset with one missing cell. -/
theorem claim_C10_witness :
    (setupData ⟨⟨[0, 900], ["a"], [[some 1, none]]⟩, [("a", ["a"])], none, []⟩
        none = some ⟨[0, 900], ["a"], [[some 1, none]]⟩ ∧
      DataFrame.WF ⟨[0, 900], ["a"], [[some 1, none]]⟩ ∧
      List.Pairwise (· < ·) [0, 900]) ∧
    (∀ r ∈ (checkRange ⟨⟨[0, 900], ["a"], [[some 1, none]]⟩, [("a", ["a"])],
        none, []⟩ (some 5) none none 1).test_results.drop 0,
      ∃ ci, ci < ([[some (1:ℚ), none]] : List (List (Option ℚ))).length ∧
        (["a"] : List String).getD ci "" = r.varName ∧
        ∀ j, j < ([0, 900] : List Nat).length →
          (([[some (1:ℚ), none]].getD ci [] : List (Option ℚ)).getD j none = none) →
          ¬ (r.startTime ≤ [0, 900].getD j 0 ∧ [0, 900].getD j 0 ≤ r.endTime)) := by
  have h := claim_C10 ⟨⟨[0, 900], ["a"], [[some 1, none]]⟩, [("a", ["a"])], none, []⟩
    (some 5) none none 1 1 true ⟨[0, 900], ["a"], [[some 1, none]]⟩
    rfl (by constructor <;> simp) (by decide)
  exact ⟨⟨rfl, by constructor <;> simp, by decide⟩, h.2.1⟩

theorem generateTestResults_df (pm : PM) (df : DataFrame)
    (lower upper : Option ℚ) (m : Nat) (pre : String) :
    (generateTestResults pm df lower upper m pre).df = pm.df ∧
    (generateTestResults pm df lower upper m pre).trans = pm.trans ∧
    (generateTestResults pm df lower upper m pre).tfilter = pm.tfilter := by
  cases lower with
  | none =>
    cases upper with
    | none => exact ⟨rfl, rfl, rfl⟩
    | some hi => exact appendTestResults_state _ _ _ _ _
  | some lo =>
    cases upper with
    | none => exact appendTestResults_state _ _ _ _ _
    | some hi =>
      have h1 := appendTestResults_state pm (maskOfGrid df (fun v => !(ltBnd v lo)))
        (pre ++ " < lower bound, " ++ toString lo) m false
      have h2 := appendTestResults_state
        (appendTestResults pm (maskOfGrid df (fun v => !(ltBnd v lo)))
          (pre ++ " < lower bound, " ++ toString lo) m false)
        (maskOfGrid df (fun v => !(gtBnd v hi)))
        (pre ++ " > upper bound, " ++ toString hi) m false
      exact ⟨h2.1.trans h1.1, h2.2.1.trans h1.2.1, h2.2.2.trans h1.2.2⟩

theorem getD_zipWith {α β γ : Type} (f : α → β → γ) (l1 : List α) (l2 : List β)
    (i : Nat) (d : γ) (d1 : α) (d2 : β) (h1 : i < l1.length) (h2 : i < l2.length) :
    (List.zipWith f l1 l2).getD i d = f (l1.getD i d1) (l2.getD i d2) := by
  have hlen : i < (List.zipWith f l1 l2).length := by
    rw [List.length_zipWith]
    omega
  rw [List.getD_eq_getElem _ _ hlen, List.getD_eq_getElem _ _ h1,
    List.getD_eq_getElem _ _ h2]
  exact List.getElem_zipWith

theorem nodup_findIdx_at {l : List String} (hnd : l.Nodup) {ci : Nat}
    (hci : ci < l.length) :
    l.findIdx? (fun x => x == l.getD ci "") = some ci := by
  rw [List.findIdx?_eq_some_iff_getElem]
  refine ⟨hci, ?_, ?_⟩
  · rw [List.getD_eq_getElem l "" hci]
    simp
  · intro j hj
    rw [List.getD_eq_getElem l "" hci]
    simp only [Bool.not_eq_true, beq_eq_false_iff_ne, ne_eq]
    intro heq
    have hinj := List.nodup_iff_injective_get.mp hnd
    have : (⟨j, by omega⟩ : Fin l.length) = ⟨ci, hci⟩ := by
      apply hinj
      simp only [List.get_eq_getElem]
      exact heq
    have : j = ci := by
      have := congrArg Fin.val this
      simpa using this
    omega

theorem getD_mapIdx_getD {α β : Type} (l : List α) (f : Nat → α → β) (j : Nat)
    (d : β) (d2 : α) (hj : j < l.length) :
    (l.mapIdx f).getD j d = f j (l.getD j d2) := by
  rw [getD_mapIdx l f j d hj]
  congr 1
  rw [List.get_eq_getElem, List.getD_eq_getElem _ _ hj]

theorem getD_map_getD {α β : Type} (l : List α) (f : α → β) (i : Nat) (d : β)
    (d2 : α) (h : i < l.length) :
    (l.map f).getD i d = f (l.getD i d2) := by
  rw [getD_map l f i d h]
  congr 1
  rw [List.get_eq_getElem, List.getD_eq_getElem _ _ h]

theorem setColIf_cell (cols2 : List (List Bool)) (cj2 : Nat) (idx : List Nat)
    (p : Nat → Bool) (v : Bool) (cj i : Nat)
    (hcj : cj < cols2.length) (hi : i < (cols2.getD cj []).length) :
    ((setColIf cols2 cj2 idx p v).getD cj []).getD i true =
      if cj = cj2 ∧ p (idx.getD i 0) = true then v
      else (cols2.getD cj []).getD i true := by
  unfold setColIf
  rw [getD_mapIdx_getD cols2 _ cj [] [] hcj]
  by_cases hcc : cj = cj2
  · rw [if_pos hcc, getD_mapIdx_getD _ _ i true true hi]
    by_cases hp : p (idx.getD i 0) = true
    · rw [if_pos hp, if_pos ⟨hcc, hp⟩]
    · rw [if_neg hp, if_neg (fun hh => hp hh.2)]
  · rw [if_neg hcc, if_neg (fun hh => hcc hh.1)]

theorem setColIf_length (cols2 : List (List Bool)) (cj2 : Nat) (idx : List Nat)
    (p : Nat → Bool) (v : Bool) :
    (setColIf cols2 cj2 idx p v).length = cols2.length := by
  unfold setColIf
  rw [List.length_mapIdx]

theorem setColIf_col_length (cols2 : List (List Bool)) (cj2 : Nat)
    (idx : List Nat) (p : Nat → Bool) (v : Bool) (cj : Nat)
    (hcj : cj < cols2.length) :
    ((setColIf cols2 cj2 idx p v).getD cj []).length =
      (cols2.getD cj []).length := by
  unfold setColIf
  rw [getD_mapIdx_getD cols2 _ cj [] [] hcj]
  by_cases hcc : cj = cj2
  · rw [if_pos hcc, List.length_mapIdx]
  · rw [if_neg hcc]

theorem deltaStep_lower_cell (df : DataFrame) (w : Nat) (dir : Option Dir)
    (idx : List Nat) (cols2 : List (List Bool)) (pt : Nat × Nat) (cj i : Nat)
    (hcj : cj < cols2.length) (hi : i < (cols2.getD cj []).length) :
    ((deltaStep df w .lower dir idx cols2 pt).getD cj []).getD i true =
      if (decide (cj = pt.2) && lowerMarks df w dir idx pt &&
          decide (idx.getD pt.1 0 - w ≤ idx.getD i 0 ∧
            idx.getD i 0 ≤ idx.getD pt.1 0)) = true
      then false else (cols2.getD cj []).getD i true := by
  cases dir with
  | none =>
    show ((setColIf cols2 pt.2 idx
        (fun s => decide (idx.getD pt.1 0 - w ≤ s ∧ s ≤ idx.getD pt.1 0))
        false).getD cj []).getD i true = _
    rw [setColIf_cell _ _ _ _ _ _ _ hcj hi]
    have hiff : (cj = pt.2 ∧
        decide (idx.getD pt.1 0 - w ≤ idx.getD i 0 ∧
          idx.getD i 0 ≤ idx.getD pt.1 0) = true) ↔
        (decide (cj = pt.2) && lowerMarks df w none idx pt &&
          decide (idx.getD pt.1 0 - w ≤ idx.getD i 0 ∧
            idx.getD i 0 ≤ idx.getD pt.1 0)) = true := by
      simp [lowerMarks]
    exact if_congr hiff rfl rfl
  | some d =>
    cases d with
    | pos =>
      show ((if some Dir.pos = some Dir.pos ∧
            leO (idxMinW idx (df.cols.getD pt.2 [])
                (idx.getD pt.1 0 - w) (idx.getD pt.1 0))
              (idxMaxW idx (df.cols.getD pt.2 [])
                (idx.getD pt.1 0 - w) (idx.getD pt.1 0)) = true
          then
            setColIf cols2 pt.2 idx
              (fun s => decide (idx.getD pt.1 0 - w ≤ s ∧ s ≤ idx.getD pt.1 0))
              false
          else if some Dir.pos = some Dir.neg ∧
            leO (idxMaxW idx (df.cols.getD pt.2 [])
                (idx.getD pt.1 0 - w) (idx.getD pt.1 0))
              (idxMinW idx (df.cols.getD pt.2 [])
                (idx.getD pt.1 0 - w) (idx.getD pt.1 0)) = true
          then
            setColIf cols2 pt.2 idx
              (fun s => decide (idx.getD pt.1 0 - w ≤ s ∧ s ≤ idx.getD pt.1 0))
              false
          else cols2).getD cj []).getD i true = _
      by_cases hL : leO (idxMinW idx (df.cols.getD pt.2 [])
            (idx.getD pt.1 0 - w) (idx.getD pt.1 0))
          (idxMaxW idx (df.cols.getD pt.2 [])
            (idx.getD pt.1 0 - w) (idx.getD pt.1 0)) = true
      · rw [if_pos ⟨rfl, hL⟩, setColIf_cell _ _ _ _ _ _ _ hcj hi]
        have hm : lowerMarks df w (some .pos) idx pt = true := hL
        have hiff : (cj = pt.2 ∧
            decide (idx.getD pt.1 0 - w ≤ idx.getD i 0 ∧
              idx.getD i 0 ≤ idx.getD pt.1 0) = true) ↔
            (decide (cj = pt.2) && lowerMarks df w (some .pos) idx pt &&
              decide (idx.getD pt.1 0 - w ≤ idx.getD i 0 ∧
                idx.getD i 0 ≤ idx.getD pt.1 0)) = true := by
          rw [Bool.and_eq_true, Bool.and_eq_true, hm]
          constructor
          · rintro ⟨ha, hb⟩
            exact ⟨⟨by simpa using ha, rfl⟩, hb⟩
          · rintro ⟨⟨ha, _⟩, hb⟩
            exact ⟨by simpa using ha, hb⟩
        exact if_congr hiff rfl rfl
      · rw [if_neg (fun hh => hL hh.2), if_neg (by simp)]
        rw [if_neg (fun hh => by
          rw [Bool.and_eq_true, Bool.and_eq_true] at hh
          have := hh.1.2
          rw [show lowerMarks df w (some .pos) idx pt =
            leO (idxMinW idx (df.cols.getD pt.2 [])
                (idx.getD pt.1 0 - w) (idx.getD pt.1 0))
              (idxMaxW idx (df.cols.getD pt.2 [])
                (idx.getD pt.1 0 - w) (idx.getD pt.1 0)) from rfl] at this
          exact hL this)]
    | neg =>
      show ((if some Dir.neg = some Dir.pos ∧
            leO (idxMinW idx (df.cols.getD pt.2 [])
                (idx.getD pt.1 0 - w) (idx.getD pt.1 0))
              (idxMaxW idx (df.cols.getD pt.2 [])
                (idx.getD pt.1 0 - w) (idx.getD pt.1 0)) = true
          then
            setColIf cols2 pt.2 idx
              (fun s => decide (idx.getD pt.1 0 - w ≤ s ∧ s ≤ idx.getD pt.1 0))
              false
          else if some Dir.neg = some Dir.neg ∧
            leO (idxMaxW idx (df.cols.getD pt.2 [])
                (idx.getD pt.1 0 - w) (idx.getD pt.1 0))
              (idxMinW idx (df.cols.getD pt.2 [])
                (idx.getD pt.1 0 - w) (idx.getD pt.1 0)) = true
          then
            setColIf cols2 pt.2 idx
              (fun s => decide (idx.getD pt.1 0 - w ≤ s ∧ s ≤ idx.getD pt.1 0))
              false
          else cols2).getD cj []).getD i true = _
      rw [if_neg (by simp)]
      by_cases hL : leO (idxMaxW idx (df.cols.getD pt.2 [])
            (idx.getD pt.1 0 - w) (idx.getD pt.1 0))
          (idxMinW idx (df.cols.getD pt.2 [])
            (idx.getD pt.1 0 - w) (idx.getD pt.1 0)) = true
      · rw [if_pos ⟨rfl, hL⟩, setColIf_cell _ _ _ _ _ _ _ hcj hi]
        have hm : lowerMarks df w (some .neg) idx pt = true := hL
        have hiff : (cj = pt.2 ∧
            decide (idx.getD pt.1 0 - w ≤ idx.getD i 0 ∧
              idx.getD i 0 ≤ idx.getD pt.1 0) = true) ↔
            (decide (cj = pt.2) && lowerMarks df w (some .neg) idx pt &&
              decide (idx.getD pt.1 0 - w ≤ idx.getD i 0 ∧
                idx.getD i 0 ≤ idx.getD pt.1 0)) = true := by
          rw [Bool.and_eq_true, Bool.and_eq_true, hm]
          constructor
          · rintro ⟨ha, hb⟩
            exact ⟨⟨by simpa using ha, rfl⟩, hb⟩
          · rintro ⟨⟨ha, _⟩, hb⟩
            exact ⟨by simpa using ha, hb⟩
        exact if_congr hiff rfl rfl
      · rw [if_neg (fun hh => hL hh.2)]
        rw [if_neg (fun hh => by
          rw [Bool.and_eq_true, Bool.and_eq_true] at hh
          have := hh.1.2
          rw [show lowerMarks df w (some .neg) idx pt =
            leO (idxMaxW idx (df.cols.getD pt.2 [])
                (idx.getD pt.1 0 - w) (idx.getD pt.1 0))
              (idxMinW idx (df.cols.getD pt.2 [])
                (idx.getD pt.1 0 - w) (idx.getD pt.1 0)) from rfl] at this
          exact hL this)]

theorem deltaStep_lower_cases (df : DataFrame) (w : Nat) (dir : Option Dir)
    (idx : List Nat) (cols2 : List (List Bool)) (pt : Nat × Nat) :
    deltaStep df w .lower dir idx cols2 pt =
      setColIf cols2 pt.2 idx
        (fun s => decide (idx.getD pt.1 0 - w ≤ s ∧ s ≤ idx.getD pt.1 0))
        false ∨
    deltaStep df w .lower dir idx cols2 pt = cols2 := by
  cases dir with
  | none => exact Or.inl rfl
  | some d =>
    cases d with
    | pos =>
      by_cases hL : leO (idxMinW idx (df.cols.getD pt.2 [])
            (idx.getD pt.1 0 - w) (idx.getD pt.1 0))
          (idxMaxW idx (df.cols.getD pt.2 [])
            (idx.getD pt.1 0 - w) (idx.getD pt.1 0)) = true
      · refine Or.inl ?_
        show (if some Dir.pos = some Dir.pos ∧
            leO (idxMinW idx (df.cols.getD pt.2 [])
                (idx.getD pt.1 0 - w) (idx.getD pt.1 0))
              (idxMaxW idx (df.cols.getD pt.2 [])
                (idx.getD pt.1 0 - w) (idx.getD pt.1 0)) = true
          then
            setColIf cols2 pt.2 idx
              (fun s => decide (idx.getD pt.1 0 - w ≤ s ∧ s ≤ idx.getD pt.1 0))
              false
          else if some Dir.pos = some Dir.neg ∧
            leO (idxMaxW idx (df.cols.getD pt.2 [])
                (idx.getD pt.1 0 - w) (idx.getD pt.1 0))
              (idxMinW idx (df.cols.getD pt.2 [])
                (idx.getD pt.1 0 - w) (idx.getD pt.1 0)) = true
          then
            setColIf cols2 pt.2 idx
              (fun s => decide (idx.getD pt.1 0 - w ≤ s ∧ s ≤ idx.getD pt.1 0))
              false
          else cols2) = _
        rw [if_pos ⟨rfl, hL⟩]
      · refine Or.inr ?_
        show (if some Dir.pos = some Dir.pos ∧
            leO (idxMinW idx (df.cols.getD pt.2 [])
                (idx.getD pt.1 0 - w) (idx.getD pt.1 0))
              (idxMaxW idx (df.cols.getD pt.2 [])
                (idx.getD pt.1 0 - w) (idx.getD pt.1 0)) = true
          then
            setColIf cols2 pt.2 idx
              (fun s => decide (idx.getD pt.1 0 - w ≤ s ∧ s ≤ idx.getD pt.1 0))
              false
          else if some Dir.pos = some Dir.neg ∧
            leO (idxMaxW idx (df.cols.getD pt.2 [])
                (idx.getD pt.1 0 - w) (idx.getD pt.1 0))
              (idxMinW idx (df.cols.getD pt.2 [])
                (idx.getD pt.1 0 - w) (idx.getD pt.1 0)) = true
          then
            setColIf cols2 pt.2 idx
              (fun s => decide (idx.getD pt.1 0 - w ≤ s ∧ s ≤ idx.getD pt.1 0))
              false
          else cols2) = cols2
        rw [if_neg (fun hh => hL hh.2), if_neg (by simp)]
    | neg =>
      by_cases hL : leO (idxMaxW idx (df.cols.getD pt.2 [])
            (idx.getD pt.1 0 - w) (idx.getD pt.1 0))
          (idxMinW idx (df.cols.getD pt.2 [])
            (idx.getD pt.1 0 - w) (idx.getD pt.1 0)) = true
      · refine Or.inl ?_
        show (if some Dir.neg = some Dir.pos ∧
            leO (idxMinW idx (df.cols.getD pt.2 [])
                (idx.getD pt.1 0 - w) (idx.getD pt.1 0))
              (idxMaxW idx (df.cols.getD pt.2 [])
                (idx.getD pt.1 0 - w) (idx.getD pt.1 0)) = true
          then
            setColIf cols2 pt.2 idx
              (fun s => decide (idx.getD pt.1 0 - w ≤ s ∧ s ≤ idx.getD pt.1 0))
              false
          else if some Dir.neg = some Dir.neg ∧
            leO (idxMaxW idx (df.cols.getD pt.2 [])
                (idx.getD pt.1 0 - w) (idx.getD pt.1 0))
              (idxMinW idx (df.cols.getD pt.2 [])
                (idx.getD pt.1 0 - w) (idx.getD pt.1 0)) = true
          then
            setColIf cols2 pt.2 idx
              (fun s => decide (idx.getD pt.1 0 - w ≤ s ∧ s ≤ idx.getD pt.1 0))
              false
          else cols2) = _
        rw [if_neg (by simp), if_pos ⟨rfl, hL⟩]
      · refine Or.inr ?_
        show (if some Dir.neg = some Dir.pos ∧
            leO (idxMinW idx (df.cols.getD pt.2 [])
                (idx.getD pt.1 0 - w) (idx.getD pt.1 0))
              (idxMaxW idx (df.cols.getD pt.2 [])
                (idx.getD pt.1 0 - w) (idx.getD pt.1 0)) = true
          then
            setColIf cols2 pt.2 idx
              (fun s => decide (idx.getD pt.1 0 - w ≤ s ∧ s ≤ idx.getD pt.1 0))
              false
          else if some Dir.neg = some Dir.neg ∧
            leO (idxMaxW idx (df.cols.getD pt.2 [])
                (idx.getD pt.1 0 - w) (idx.getD pt.1 0))
              (idxMinW idx (df.cols.getD pt.2 [])
                (idx.getD pt.1 0 - w) (idx.getD pt.1 0)) = true
          then
            setColIf cols2 pt.2 idx
              (fun s => decide (idx.getD pt.1 0 - w ≤ s ∧ s ≤ idx.getD pt.1 0))
              false
          else cols2) = cols2
        rw [if_neg (by simp), if_neg (fun hh => hL hh.2)]

theorem deltaStep_lower_shape (df : DataFrame) (w : Nat) (dir : Option Dir)
    (idx : List Nat) (cols2 : List (List Bool)) (pt : Nat × Nat) (cj : Nat)
    (hcj : cj < cols2.length) :
    (deltaStep df w .lower dir idx cols2 pt).length = cols2.length ∧
    ((deltaStep df w .lower dir idx cols2 pt).getD cj []).length =
      (cols2.getD cj []).length := by
  rcases deltaStep_lower_cases df w dir idx cols2 pt with h | h <;> rw [h]
  · exact ⟨setColIf_length _ _ _ _ _, setColIf_col_length _ _ _ _ _ _ hcj⟩
  · exact ⟨rfl, rfl⟩

theorem foldl_deltaStep_lower_cell (df : DataFrame) (w : Nat)
    (dir : Option Dir) (idx : List Nat) (cj i : Nat) :
    ∀ (pts : List (Nat × Nat)) (cols2 : List (List Bool)),
      cj < cols2.length → i < (cols2.getD cj []).length →
      ((pts.foldl (deltaStep df w .lower dir idx) cols2).getD cj []).getD i
          true =
        if pts.any (fun pt => decide (cj = pt.2) && lowerMarks df w dir idx pt &&
            decide (idx.getD pt.1 0 - w ≤ idx.getD i 0 ∧
              idx.getD i 0 ≤ idx.getD pt.1 0))
        then false
        else (cols2.getD cj []).getD i true := by
  intro pts
  induction pts with
  | nil =>
    intro cols2 _ _
    simp
  | cons pt pts ih =>
    intro cols2 h1 h2
    rw [List.foldl_cons]
    obtain ⟨hlen, hclen⟩ := deltaStep_lower_shape df w dir idx cols2 pt cj h1
    rw [ih _ (by rw [hlen]; exact h1) (by rw [hclen]; exact h2)]
    rw [deltaStep_lower_cell df w dir idx cols2 pt cj i h1 h2]
    simp only [List.any_cons]
    by_cases hany : (pts.any (fun pt => decide (cj = pt.2) &&
        lowerMarks df w dir idx pt &&
        decide (idx.getD pt.1 0 - w ≤ idx.getD i 0 ∧
          idx.getD i 0 ≤ idx.getD pt.1 0))) = true
    · rw [if_pos hany, if_pos (by rw [hany, Bool.or_true])]
    · rw [if_neg hany]
      by_cases hpt : (decide (cj = pt.2) && lowerMarks df w dir idx pt &&
          decide (idx.getD pt.1 0 - w ≤ idx.getD i 0 ∧
            idx.getD i 0 ≤ idx.getD pt.1 0)) = true
      · rw [if_pos hpt, if_pos (by rw [hpt, Bool.true_or])]
      · rw [if_neg hpt, if_neg (fun hc => by
          rw [Bool.or_eq_true] at hc
          rcases hc with h | h
          · exact hpt h
          · exact hany h)]

theorem keepLastRows_cons (r0 : Nat × Bool) (rest : List (Nat × Bool)) :
    keepLastRows (r0 :: rest) =
      if rest.any (fun q => q.1 == r0.1) then keepLastRows rest
      else r0 :: keepLastRows rest := rfl

theorem keepLastRows_last_char (d : Nat × Bool) :
    ∀ (rows : List (Nat × Bool)) (r : Nat × Bool), r ∈ keepLastRows rows →
      ∃ i, i < rows.length ∧ rows.getD i d = r ∧
        ∀ j, i < j → j < rows.length → (rows.getD j d).1 ≠ r.1 := by
  intro rows
  induction rows with
  | nil => intro r hr; simp [keepLastRows] at hr
  | cons r0 rest ih =>
    intro r hr
    rw [keepLastRows_cons] at hr
    by_cases ha : (rest.any fun q => q.1 == r0.1) = true
    · rw [if_pos ha] at hr
      obtain ⟨i, hi, hget, hafter⟩ := ih r hr
      refine ⟨i + 1, by simp only [List.length_cons]; omega,
        by simpa [List.getD_cons_succ] using hget, ?_⟩
      intro j hj hjlen
      cases j with
      | zero => omega
      | succ j2 =>
        have := hafter j2 (by omega) (by simp only [List.length_cons] at hjlen; omega)
        simpa [List.getD_cons_succ] using this
    · rw [if_neg ha] at hr
      rcases List.mem_cons.mp hr with heq | hr2
      · refine ⟨0, by simp, by simpa using heq.symm, ?_⟩
        intro j hj hjlen
        cases j with
        | zero => omega
        | succ j2 =>
          have hj2len : j2 < rest.length := by
            simp only [List.length_cons] at hjlen; omega
          have hmem := getD_mem rest j2 d hj2len
          have hfalse : ((rest.getD j2 d).1 == r0.1) = false := by
            rw [Bool.eq_false_iff]
            intro hc
            exact ha (List.any_eq_true.mpr ⟨_, hmem, hc⟩)
          rw [heq]
          rw [List.getD_cons_succ]
          simpa using hfalse
      · obtain ⟨i, hi, hget, hafter⟩ := ih r hr2
        refine ⟨i + 1, by simp only [List.length_cons]; omega,
          by simpa [List.getD_cons_succ] using hget, ?_⟩
        intro j hj hjlen
        cases j with
        | zero => omega
        | succ j2 =>
          have := hafter j2 (by omega) (by simp only [List.length_cons] at hjlen; omega)
          simpa [List.getD_cons_succ] using this

theorem idxIsMono_pairwise : ∀ idx : List Nat,
    idxIsMono idx = true → List.Pairwise (· ≤ ·) idx := by
  intro idx
  induction idx with
  | nil => intro _; exact List.Pairwise.nil
  | cons a rest ih =>
    cases rest with
    | nil => intro _; exact List.pairwise_singleton _ _
    | cons c r2 =>
      intro h
      have h2 : (decide (a ≤ c) && idxIsMono (c :: r2)) = true := h
      rw [Bool.and_eq_true] at h2
      have hac : a ≤ c := of_decide_eq_true h2.1
      have hp2 := ih h2.2
      refine List.pairwise_cons.mpr ⟨?_, hp2⟩
      intro x hx
      rcases List.mem_cons.mp hx with rfl | hx2
      · exact hac
      · exact le_trans hac (List.rel_of_pairwise_cons hp2 hx2)

theorem idxIsMono_getD_le (idx : List Nat) (h : idxIsMono idx = true)
    (p q : Nat) (hpq : p ≤ q) (hq : q < idx.length) :
    idx.getD p 0 ≤ idx.getD q 0 := by
  rcases Nat.lt_or_ge p q with hlt | hge
  · have hp : p < idx.length := by omega
    rw [List.getD_eq_getElem _ _ hp, List.getD_eq_getElem _ _ hq]
    exact (List.pairwise_iff_getElem.mp (idxIsMono_pairwise idx h)) p q hp hq hlt
  · have hpq2 : p = q := by omega
    rw [hpq2]

theorem count_ge_two_of_two_pos (idx : List Nat) (t : Nat) (p q : Nat)
    (hpq : p < q) (hq : q < idx.length)
    (hp1 : idx.getD p 0 = t) (hq1 : idx.getD q 0 = t) :
    2 ≤ idx.count t := by
  have hp : p < idx.length := by omega
  have hdp : idx.drop p = t :: idx.drop (p + 1) := by
    rw [List.getD_eq_getElem _ _ hp] at hp1
    rw [List.drop_eq_getElem_cons hp, hp1]
  have hq2 : q - (p + 1) < (idx.drop (p + 1)).length := by
    rw [List.length_drop]; omega
  have hb2 : p + 1 + (q - (p + 1)) < idx.length := by omega
  have hmem : t ∈ idx.drop (p + 1) := by
    have hgd : (idx.drop (p + 1)).getD (q - (p + 1)) 0 = t := by
      rw [List.getD_eq_getElem _ _ hq2, List.getElem_drop,
        ← List.getD_eq_getElem idx 0 hb2,
        show p + 1 + (q - (p + 1)) = q by omega]
      exact hq1
    rw [← hgd]
    exact getD_mem _ _ _ hq2
  have hcnt : 1 ≤ (idx.drop (p + 1)).count t := List.count_pos_iff.mpr hmem
  have hle : (idx.drop p).count t ≤ idx.count t :=
    (List.drop_sublist p idx).count_le t
  rw [hdp, List.count_cons_self] at hle
  omega

theorem two_pos_of_count (idx : List Nat) (t : Nat) (h : 2 ≤ idx.count t) :
    ∃ p q, p < q ∧ q < idx.length ∧ idx.getD p 0 = t ∧ idx.getD q 0 = t := by
  induction idx with
  | nil => simp [List.count_nil] at h
  | cons a rest ih =>
    by_cases hat : t = a
    · have h1 : 1 ≤ rest.count t := by
        rw [← hat, List.count_cons_self] at h
        omega
      have hmem : t ∈ rest := List.count_pos_iff.mp (by omega)
      obtain ⟨j, hj, hjt⟩ := List.getElem_of_mem hmem
      refine ⟨0, j + 1, by omega, by simp only [List.length_cons]; omega, ?_, ?_⟩
      · simpa using hat.symm
      · rw [List.getD_cons_succ, List.getD_eq_getElem _ _ hj]
        exact hjt
    · have h2 : 2 ≤ rest.count t := by
        rw [List.count_cons] at h
        have hba : (a == t) = false := by
          rw [beq_eq_false_iff_ne]
          exact fun h3 => hat h3.symm
        rw [hba] at h
        simpa using h
      obtain ⟨p, q, hpq, hq, hp1, hq1⟩ := ih h2
      exact ⟨p + 1, q + 1, by omega, by simp only [List.length_cons]; omega,
        by rw [List.getD_cons_succ]; exact hp1,
        by rw [List.getD_cons_succ]; exact hq1⟩

theorem dupBaseMask_length (idx : List Nat) :
    (dupBaseMask idx).length = idx.length := by
  unfold dupBaseMask
  rw [List.length_mapIdx]

theorem dupBaseMask_getD (idx : List Nat) (i : Nat) (hi : i < idx.length) :
    (dupBaseMask idx).getD i false =
      (if idx.getD i 0 = idx.getD 0 0 then true
       else if i = 0 then true
       else decide (¬ idx.getD i 0 = idx.getD (i - 1) 0)) := by
  unfold dupBaseMask
  rw [getD_mapIdx idx _ i false hi]
  simp only [List.get_eq_getElem, List.getD_eq_getElem idx 0 hi]

theorem getD_zip_nb (l1 : List Nat) (l2 : List Bool) (i : Nat)
    (h1 : i < l1.length) (h2 : i < l2.length) :
    (l1.zip l2).getD i (0, false) = (l1.getD i 0, l2.getD i false) := by
  have h3 : i < (l1.zip l2).length := by rw [List.length_zip]; omega
  rw [List.getD_eq_getElem _ _ h3, List.getD_eq_getElem _ _ h1,
    List.getD_eq_getElem _ _ h2]
  exact List.getElem_zip

theorem dup_flag_char (idx : List Nat) (t : Nat) (b : Bool)
    (hmono : idxIsMono idx = true)
    (hmem : (t, b) ∈ keepLastRows (idx.zip (dupBaseMask idx))) :
    b = false ↔ 2 ≤ idx.count t ∧ ¬ t = idx.getD 0 0 := by
  obtain ⟨i, hi, hget, hafter⟩ := keepLastRows_last_char (0, false) _ _ hmem
  have hzl : (idx.zip (dupBaseMask idx)).length = idx.length := by
    rw [List.length_zip, dupBaseMask_length, Nat.min_self]
  rw [hzl] at hi
  have hml : i < (dupBaseMask idx).length := by
    rw [dupBaseMask_length]; exact hi
  rw [getD_zip_nb idx _ i hi hml] at hget
  have hti : idx.getD i 0 = t := by
    have := congrArg Prod.fst hget
    simpa using this
  have hbi : (dupBaseMask idx).getD i false = b := by
    have := congrArg Prod.snd hget
    simpa using this
  rw [dupBaseMask_getD idx i hi, hti] at hbi
  constructor
  · intro hbf
    rw [hbf] at hbi
    by_cases h0 : t = idx.getD 0 0
    · rw [if_pos h0] at hbi
      simp at hbi
    · rw [if_neg h0] at hbi
      by_cases hiz : i = 0
      · rw [if_pos hiz] at hbi
        simp at hbi
      · rw [if_neg hiz] at hbi
        have hpred : t = idx.getD (i - 1) 0 :=
          not_not.mp (of_decide_eq_false hbi)
        refine ⟨?_, h0⟩
        exact count_ge_two_of_two_pos idx t (i - 1) i (by omega) hi hpred.symm hti
  · rintro ⟨hcnt, h0⟩
    obtain ⟨p, q, hpq, hq, hp1, hq1⟩ := two_pos_of_count idx t hcnt
    have hqi : q ≤ i := by
      by_contra hgt
      push_neg at hgt
      have hne := hafter q hgt (by rw [hzl]; exact hq)
      rw [getD_zip_nb idx _ q hq (by rw [dupBaseMask_length]; exact hq)] at hne
      exact hne (by simpa using hq1)
    have hi1 : 1 ≤ i := by omega
    have hle1 : idx.getD p 0 ≤ idx.getD (i - 1) 0 :=
      idxIsMono_getD_le idx hmono p (i - 1) (by omega) (by omega)
    have hle2 : idx.getD (i - 1) 0 ≤ idx.getD i 0 :=
      idxIsMono_getD_le idx hmono (i - 1) i (by omega) hi
    have hpred : idx.getD (i - 1) 0 = t := by
      rw [hp1] at hle1
      rw [hti] at hle2
      omega
    rw [if_neg h0, if_neg (by omega : ¬ i = 0), hpred] at hbi
    have hdf : decide (¬ t = t) = false := by simp
    rw [hdf] at hbi
    exact hbi.symm

theorem getD_of_take_eq {α : Type} {l1 l2 : List α} {n i : Nat}
    (h : l1.take n = l2.take n) (hi : i < n) (d : α) :
    l1.getD i d = l2.getD i d := by
  rw [List.getD_eq_getElem?_getD, List.getD_eq_getElem?_getD]
  have e1 : (l1.take n)[i]? = l1[i]? := by rw [List.getElem?_take, if_pos hi]
  have e2 : (l2.take n)[i]? = l2[i]? := by rw [List.getElem?_take, if_pos hi]
  rw [← e1, ← e2, h]

theorem take_mono_eq {α : Type} {l1 l2 : List α} {n m : Nat}
    (h : l1.take n = l2.take n) (hmn : m ≤ n) : l1.take m = l2.take m := by
  have h2 := congrArg (List.take m) h
  rw [List.take_take, List.take_take, Nat.min_eq_left hmn] at h2
  exact h2

theorem set_take_eq {α : Type} (t t' : Nat) (l1 l2 : List α) (x1 x2 : α)
    (h : l1.take (t + 1) = l2.take (t + 1))
    (hx : t' < t + 1 → x1 = x2) :
    (l1.set t' x1).take (t + 1) = (l2.set t' x2).take (t + 1) := by
  by_cases hlt : t' < t + 1
  · rw [List.set_take, List.set_take, h, hx hlt]
  · rw [List.set_take, List.set_take,
      List.set_eq_of_length_le (by rw [List.length_take]; omega),
      List.set_eq_of_length_le (by rw [List.length_take]; omega), h]

theorem applyMaskRows_take (d : List (List (Option ℚ)))
    (m : List (List Bool)) (n : Nat) :
    (applyMaskRows d m).take n = applyMaskRows (d.take n) (m.take n) := by
  unfold applyMaskRows
  rw [List.take_zipWith]

theorem step_data1_take_eq
    (qc : List (Option ℚ) → List (List (Option ℚ)) → List Bool)
    (idx : List Nat) (w : Nat) (t t' : Nat) (st1 st2 : StreamState)
    (hd : st1.data.take (t + 1) = st2.data.take (t + 1))
    (hm : st1.mask.take (t + 1) = st2.mask.take (t + 1)) :
    (applyMaskRows st1.data (st1.mask.set t' (qc (st1.data.getD t' [])
        ((st1.data.take t').drop
          (nearestLoc idx (idx.getD t' 0 - w)))))).take (t + 1) =
    (applyMaskRows st2.data (st2.mask.set t' (qc (st2.data.getD t' [])
        ((st2.data.take t').drop
          (nearestLoc idx (idx.getD t' 0 - w)))))).take (t + 1) := by
  rw [applyMaskRows_take, applyMaskRows_take, hd]
  congr 1
  refine set_take_eq _ _ _ _ _ _ hm ?_
  intro hlt
  rw [getD_of_take_eq hd hlt [],
    take_mono_eq hd (show t' ≤ t + 1 by omega)]

theorem streamStep_take_eq
    (qc : List (Option ℚ) → List (List (Option ℚ)) → List Bool)
    (idx : List Nat) (w : Nat) (rb : Option ℚ) (t : Nat)
    (orig1 orig2 : List (List (Option ℚ)))
    (htake : orig1.take (t + 1) = orig2.take (t + 1))
    (st1 st2 : StreamState) (t' : Nat)
    (hd : st1.data.take (t + 1) = st2.data.take (t + 1))
    (hm : st1.mask.take (t + 1) = st2.mask.take (t + 1)) :
    (streamStep qc orig1 idx w rb st1 t').data.take (t + 1) =
      (streamStep qc orig2 idx w rb st2 t').data.take (t + 1) ∧
    (streamStep qc orig1 idx w rb st1 t').mask.take (t + 1) =
      (streamStep qc orig2 idx w rb st2 t').mask.take (t + 1) := by
  have hd1 := step_data1_take_eq qc idx w t t' st1 st2 hd hm
  have hm1 : (st1.mask.set t' (qc (st1.data.getD t' [])
      ((st1.data.take t').drop
        (nearestLoc idx (idx.getD t' 0 - w))))).take (t + 1) =
      (st2.mask.set t' (qc (st2.data.getD t' [])
      ((st2.data.take t').drop
        (nearestLoc idx (idx.getD t' 0 - w))))).take (t + 1) := by
    refine set_take_eq _ _ _ _ _ _ hm ?_
    intro hlt
    rw [getD_of_take_eq hd hlt [],
      take_mono_eq hd (show t' ≤ t + 1 by omega)]
  cases rb with
  | none => exact ⟨hd1, hm1⟩
  | some r =>
    refine ⟨?_, hm1⟩
    refine set_take_eq _ _ _ _ _ _ hd1 ?_
    intro hlt
    rw [getD_of_take_eq hd1 hlt [],
      take_mono_eq hd1 (show t' + 1 ≤ t + 1 by omega),
      getD_of_take_eq htake hlt []]

theorem streamFold_take_eq
    (qc : List (Option ℚ) → List (List (Option ℚ)) → List Bool)
    (idx : List Nat) (w : Nat) (rb : Option ℚ) (t : Nat)
    (orig1 orig2 : List (List (Option ℚ)))
    (htake : orig1.take (t + 1) = orig2.take (t + 1)) :
    ∀ (ts : List Nat) (st1 st2 : StreamState),
      st1.data.take (t + 1) = st2.data.take (t + 1) →
      st1.mask.take (t + 1) = st2.mask.take (t + 1) →
      ((ts.foldl (streamStep qc orig1 idx w rb) st1).data.take (t + 1) =
        (ts.foldl (streamStep qc orig2 idx w rb) st2).data.take (t + 1)) ∧
      ((ts.foldl (streamStep qc orig1 idx w rb) st1).mask.take (t + 1) =
        (ts.foldl (streamStep qc orig2 idx w rb) st2).mask.take (t + 1)) := by
  intro ts
  induction ts with
  | nil =>
    intro st1 st2 hd hm
    exact ⟨hd, hm⟩
  | cons t' ts ih =>
    intro st1 st2 hd hm
    rw [List.foldl_cons, List.foldl_cons]
    obtain ⟨hd2, hm2⟩ :=
      streamStep_take_eq qc idx w rb t orig1 orig2 htake st1 st2 t' hd hm
    exact ih _ _ hd2 hm2

/-- C9: `check_corrupt` (here with `key = None`, so all columns are tested)
nulls exactly the Dataset cells whose value is a member of the
caller-supplied corrupt-value list and leaves every other cell unchanged
(the index and column names are untouched), while `check_range`,
`check_missing`, `check_increment` (when it returns normally) and batch
`check_outlier` leave the Dataset entirely unchanged. -/
theorem claim_C9 (pm : PM) (cv : List ℚ) (key : Option String)
    (lower upper : Option ℚ) (m k : Nat) (absV : Bool) (window : Option Nat)
    (hwf : pm.df.WF) (hnd : pm.df.colNames.Nodup) :
    ((checkCorrupt pm cv none m).df.index = pm.df.index ∧
      (checkCorrupt pm cv none m).df.colNames = pm.df.colNames ∧
      (¬ pm.df.index = [] → ¬ pm.df.colNames = [] →
        ∀ ci, ci < pm.df.cols.length →
        ∀ i, i < (pm.df.cols.getD ci []).length →
          ((checkCorrupt pm cv none m).df.cols.getD ci []).getD i none =
            (if isinB ((pm.df.cols.getD ci []).getD i none) cv then none
             else (pm.df.cols.getD ci []).getD i none))) ∧
    ((checkRange pm lower upper key m).df = pm.df) ∧
    ((checkMissing pm key m).df = pm.df) ∧
    (∀ pm2, checkIncrement pm lower upper key k absV m = Except.ok pm2 →
      pm2.df = pm.df) ∧
    ((checkOutlierBatch pm lower upper window key absV m).df = pm.df) := by
  refine ⟨?_, ?_, ?_, ?_, ?_⟩
  · by_cases hemp : pm.df.index = [] ∨ pm.df.colNames = []
    · have hsd : setupData pm none = none := by
        unfold setupData
        rw [if_pos hemp]
      have hcc : checkCorrupt pm cv none m = pm := by
        unfold checkCorrupt
        rw [hsd]
      rw [hcc]
      exact ⟨rfl, rfl, fun h1 h2 => absurd hemp (by simp [h1, h2])⟩
    · have hsd : setupData pm none = some pm.df := by
        unfold setupData
        rw [if_neg hemp]
      have hcc : checkCorrupt pm cv none m =
          appendTestResults { pm with df := nullifyDF pm.df (corruptGrid pm.df cv) }
            (corruptGrid pm.df cv) "Corrupt data" m false := by
        unfold checkCorrupt
        rw [hsd]
      have hdf : (checkCorrupt pm cv none m).df =
          nullifyDF pm.df (corruptGrid pm.df cv) := by
        rw [hcc]
        exact (appendTestResults_state _ _ _ _ _).1
      refine ⟨by rw [hdf]; rfl, by rw [hdf]; rfl, ?_⟩
      intro _ _ ci hci i hi
      rw [hdf]
      have hci2 : ci < pm.df.colNames.length := by
        rw [← hwf.1]
        exact hci
      show ((List.zipWith _ pm.df.colNames pm.df.cols).getD ci []).getD i none = _
      rw [getD_zipWith _ pm.df.colNames pm.df.cols ci [] "" [] hci2 hci]
      rw [show (corruptGrid pm.df cv).colNames = pm.df.colNames from rfl]
      rw [nodup_findIdx_at hnd hci2]
      have hmaskcol : (pm.df.cols.map (fun c => c.map (fun v => !(isinB v cv)))).getD ci [] =
          (pm.df.cols.getD ci []).map (fun v => !(isinB v cv)) := by
        rw [getD_map _ _ _ _ hci, List.getD_eq_getElem pm.df.cols [] hci]
        rfl
      show ((pm.df.cols.getD ci []).mapIdx (fun i2 v =>
        if ((pm.df.cols.map (fun c => c.map (fun v => !(isinB v cv)))).getD ci []).getD i2 true
        then v else none)).getD i none = _
      rw [getD_mapIdx _ _ i none hi]
      rw [hmaskcol]
      rw [getD_map _ _ _ _ hi]
      rw [List.getD_eq_getElem _ _ hi]
      simp only [List.get_eq_getElem]
      cases hiv : isinB (pm.df.cols.getD ci [])[i] cv with
      | true => simp [hiv]
      | false => simp [hiv]
  · unfold checkRange
    cases hsd : setupData pm key with
    | none => rfl
    | some df => exact (generateTestResults_df pm df lower upper m "Data").1
  · unfold checkMissing
    cases hsd : setupData pm key with
    | none => rfl
    | some df => exact (appendTestResults_state _ _ _ _ _).1
  · intro pm2 hok
    unfold checkIncrement at hok
    cases hsd : setupData pm key with
    | none =>
      rw [hsd] at hok
      injection hok with hok
      rw [← hok]
    | some df =>
      rw [hsd] at hok
      replace hok : (if (df.cols.all fun c => c.all fun v => v.isNone) = true then
          (match key with
            | none => (Except.error
                "TypeError: can only concatenate str (not NoneType) to str" :
                  Except String PM)
            | some _ => Except.ok pm)
        else Except.ok (generateTestResults pm
          { index := df.index, colNames := df.colNames,
            cols := List.map (fun c => diffCol c k absV) df.cols }
          lower upper m (if absV = true then "|Increment|" else "Increment"))) =
            Except.ok pm2 := hok
      by_cases hnull : (df.cols.all fun c => c.all fun v => v.isNone) = true
      · rw [if_pos hnull] at hok
        cases key with
        | none => simp at hok
        | some k2 =>
          injection hok with hok
          rw [← hok]
      · rw [if_neg hnull] at hok
        injection hok with hok
        rw [← hok]
        exact (generateTestResults_df _ _ _ _ _ _).1
  · unfold checkOutlierBatch
    cases hsd : setupData pm key with
    | none => rfl
    | some df =>
      cases lower with
      | none =>
        cases upper with
        | none => rfl
        | some hi => exact (appendTestResults_state _ _ _ _ _).1
      | some lo =>
        cases upper with
        | none => exact (appendTestResults_state _ _ _ _ _).1
        | some hi =>
          exact ((appendTestResults_state _ _ _ _ _).1.trans
            ((appendTestResults_state _ _ _ _ _).1))

/-- Witness for C9 at a 2-row single-column Dataset with one corrupt value. -/
theorem claim_C9_witness :
    (DataFrame.WF ⟨[0, 900], ["a"], [[some 1, some 7]]⟩ ∧
      (["a"] : List String).Nodup) ∧
    ((checkCorrupt ⟨⟨[0, 900], ["a"], [[some 1, some 7]]⟩, [("a", ["a"])], none, []⟩
        [7] none 1).df.index = [0, 900] ∧
      (checkRange ⟨⟨[0, 900], ["a"], [[some 1, some 7]]⟩, [("a", ["a"])], none, []⟩
        (some 0) none none 1).df = (⟨⟨[0, 900], ["a"], [[some 1, some 7]]⟩,
          [("a", ["a"])], none, []⟩ : PM).df) := by
  have h := claim_C9 ⟨⟨[0, 900], ["a"], [[some 1, some 7]]⟩, [("a", ["a"])], none, []⟩
    [7] none (some 0) none 1 1 false none
    (by constructor <;> simp) (by simp)
  exact ⟨⟨by constructor <;> simp, by simp⟩, ⟨h.1.1, h.2.1⟩⟩

/-- C4, code bug: a `check_increment` call with `key = None` on an all-null
Dataset is supposed to log a warning and return without effect, but the
logging statement evaluates `"Check increment range failed (all data is
Null): " + key` with `key = None`, which raises `TypeError` into the caller
instead of returning silently (the spec's "never raises" error-handling
contract, and the log-and-return intent visible in the surrounding code, are
both violated). -/
theorem claim_C4_code_bug :
    checkIncrement ⟨⟨[0], ["a"], [[none]]⟩, [("a", ["a"])], none, []⟩
      (some 0) none none 1 true 1 =
    Except.error "TypeError: can only concatenate str (not NoneType) to str" := by
  rfl

/-- C6, counterexample: the index `[0, 0, 900]` is already sorted and its
second timestamp equals its immediate predecessor, yet `check_timestamp` at
frequency 900 reports NO "Duplicate timestamp" interval at all (the
assignment `mask[mask.index[0]] = True` force-passes every row labelled with
the first timestamp, so duplicates of the earliest timestamp are never
flagged); the duplicate row is still dropped from the Dataset. -/
theorem claim_C6_counterexample :
    idxIsMono [0, 0, 900] = true ∧
    ([0, 0, 900] : List Nat).getD 1 0 = ([0, 0, 900] : List Nat).getD 0 0 ∧
    (checkTimestamp ⟨⟨[0, 0, 900], ["a"], [[some 1, some 2, some 3]]⟩,
        [("a", ["a"])], none, []⟩ 900 1).test_results = [] ∧
    (checkTimestamp ⟨⟨[0, 0, 900], ["a"], [[some 1, some 2, some 3]]⟩,
        [("a", ["a"])], none, []⟩ 900 1).df.index = [0, 900] ∧
    (checkTimestamp ⟨⟨[0, 0, 900], ["a"], [[some 1, some 2, some 3]]⟩,
        [("a", ["a"])], none, []⟩ 900 1).df.cols = [[some 1, some 3]] :=
  ⟨rfl, rfl, rfl, rfl, rfl⟩

/-- C6, amended: on a sorted index, the kept (keep-last) representative flag
of a timestamp is False exactly when the timestamp occurs at least twice AND
differs from the first (earliest) timestamp — duplicates of the first
timestamp are exempted by `mask[mask.index[0]] = True`; the stated scenario
(index `[0, 900, 1800, 1800, 2700]`, frequency 900) does report exactly one
"Duplicate timestamp" interval at 1800 and the Dataset keeps the first of
the duplicated rows, reduced to 4 unique rows. -/
theorem claim_C6_amended (idx : List Nat) (t : Nat) (b : Bool)
    (hmono : idxIsMono idx = true)
    (hmem : (t, b) ∈ keepLastRows (idx.zip (dupBaseMask idx))) :
    (b = false ↔ 2 ≤ idx.count t ∧ ¬ t = idx.getD 0 0) ∧
    ((checkTimestamp ⟨⟨[0, 900, 1800, 1800, 2700], ["a"],
          [[some 1, some 2, some 3, some 4, some 5]]⟩,
        [("a", ["a"])], none, []⟩ 900 1).test_results =
        [⟨"", 1800, 1800, 1, "Duplicate timestamp"⟩] ∧
      (checkTimestamp ⟨⟨[0, 900, 1800, 1800, 2700], ["a"],
          [[some 1, some 2, some 3, some 4, some 5]]⟩,
        [("a", ["a"])], none, []⟩ 900 1).df.index = [0, 900, 1800, 2700] ∧
      (checkTimestamp ⟨⟨[0, 900, 1800, 1800, 2700], ["a"],
          [[some 1, some 2, some 3, some 4, some 5]]⟩,
        [("a", ["a"])], none, []⟩ 900 1).df.cols =
        [[some 1, some 2, some 3, some 5]]) :=
  ⟨dup_flag_char idx t b hmono hmem, rfl, rfl, rfl⟩

/-- Witness for the amended C6 at the duplicated timestamp 1800 of the
scenario index. -/
theorem claim_C6_amended_witness :
    (idxIsMono [0, 900, 1800, 1800, 2700] = true ∧
      ((1800 : Nat), false) ∈ keepLastRows
        (([0, 900, 1800, 1800, 2700] : List Nat).zip
          (dupBaseMask [0, 900, 1800, 1800, 2700]))) ∧
    (false = false ↔ 2 ≤ ([0, 900, 1800, 1800, 2700] : List Nat).count 1800 ∧
      ¬ (1800 : Nat) = ([0, 900, 1800, 1800, 2700] : List Nat).getD 0 0) :=
  ⟨⟨by decide, by decide⟩,
    (claim_C6_amended [0, 900, 1800, 1800, 2700] 1800 false
      (by decide) (by decide)).1⟩

/-- C5, counterexample: with hourly data [9, 5, 3], window 3600s, bound
[10, None] and direction 'positive', the rolling delta at the third row is 2
— a lower-bound (stagnation) violation — yet `check_delta` reports NOTHING,
while the same call with direction=None reports the full trailing window:
in `update_mask` the lower-bound whole-window marking is skipped unless the
window's idxmin/idxmax order matches the direction (here the max precedes
the min), so the claim's unconditional "for a lower-bound violation the
entire trailing window is marked failing" is false under a direction
filter. -/
theorem claim_C5_counterexample :
    ((deltaGrid ⟨[0, 3600, 7200], ["a"], [[some 9, some 5, some 3]]⟩
        3600).getD 0 []).getD 2 none = some 2 ∧
    (checkDelta ⟨⟨[0, 3600, 7200], ["a"], [[some 9, some 5, some 3]]⟩,
        [("a", ["a"])], none, []⟩ (some 10) none 3600 none (some .pos)
        1).test_results = [] ∧
    (checkDelta ⟨⟨[0, 3600, 7200], ["a"], [[some 9, some 5, some 3]]⟩,
        [("a", ["a"])], none, []⟩ (some 10) none 3600 none none
        1).test_results = [⟨"a", 3600, 7200, 2, "Delta < lower bound, 10"⟩] :=
  ⟨by with_unfolding_all rfl, by with_unfolding_all rfl,
    by with_unfolding_all rfl⟩

/-- C5, amended: (i) a cell of the lower-bound `update_mask` result is
failing exactly when some flagged point of the same column marks it: its
trailing window covers the cell's timestamp AND the direction condition
holds (always for direction=None, and otherwise only when the window's
idxmin/idxmax order matches the direction — the lower-bound whole-window
marking is direction-filtered too); (ii) rows within the first `window`
seconds of the index have a null delta and are excluded; (iii) the stated
upper-bound scenario on [0, 0, 10, 0] reports the span from the minimum's
to the maximum's timestamp (3600 to 7200), not the single crossing point. -/
theorem claim_C5_amended (mask1 : Grid) (df : DataFrame) (w : Nat)
    (dir : Option Dir) (cj i : Nat)
    (hcj : cj < mask1.cols.length)
    (hi : i < (mask1.cols.getD cj []).length) :
    ((((updateMask mask1 df w .lower dir).cols.getD cj []).getD i true =
        false) ↔
      ∃ pt ∈ flaggedCells mask1, cj = pt.2 ∧
        lowerMarks df w dir mask1.index pt = true ∧
        (mask1.index.getD pt.1 0 - w ≤ mask1.index.getD i 0 ∧
          mask1.index.getD i 0 ≤ mask1.index.getD pt.1 0)) ∧
    (∀ (df2 : DataFrame) (w2 cj2 i2 : Nat), i2 < df2.index.length →
      df2.index.getD i2 0 ≤ df2.index.getD 0 0 + w2 →
      ((deltaGrid df2 w2).getD cj2 []).getD i2 none = none) ∧
    ((checkDelta ⟨⟨[0, 3600, 7200, 10800], ["a"],
          [[some 0, some 0, some 10, some 0]]⟩,
        [("a", ["a"])], none, []⟩ none (some 5) 7200 none none
        1).test_results = [⟨"a", 3600, 7200, 2, "Delta > upper bound, 5"⟩]) := by
  refine ⟨?_, ?_, by with_unfolding_all rfl⟩
  · have hsl : (mask1.cols.map (fun c => c.map (fun _ => true))).length =
        mask1.cols.length := List.length_map _ _
    have hcl : ((mask1.cols.map (fun c => c.map (fun _ => true))).getD
        cj []).length = (mask1.cols.getD cj []).length := by
      rw [getD_map_getD mask1.cols _ cj [] [] hcj, List.length_map]
    have hcell : ((mask1.cols.map (fun c => c.map (fun _ => true))).getD
        cj []).getD i true = true := by
      rw [getD_map_getD mask1.cols _ cj [] [] hcj]
      rw [List.getD_eq_getElem _ _ (by rw [List.length_map]; exact hi)]
      simp
    have hfold := foldl_deltaStep_lower_cell df w dir mask1.index cj i
      (flaggedCells mask1) (mask1.cols.map (fun c => c.map (fun _ => true)))
      (by rw [hsl]; exact hcj) (by rw [hcl]; exact hi)
    have hum : (updateMask mask1 df w .lower dir).cols =
        (flaggedCells mask1).foldl (deltaStep df w .lower dir mask1.index)
          (mask1.cols.map (fun c => c.map (fun _ => true))) := rfl
    rw [hum, hfold, hcell]
    by_cases hB : ((flaggedCells mask1).any (fun pt => decide (cj = pt.2) &&
        lowerMarks df w dir mask1.index pt &&
        decide (mask1.index.getD pt.1 0 - w ≤ mask1.index.getD i 0 ∧
          mask1.index.getD i 0 ≤ mask1.index.getD pt.1 0))) = true
    · rw [if_pos hB]
      rw [List.any_eq_true] at hB
      obtain ⟨pt, hmem, hc⟩ := hB
      rw [Bool.and_eq_true, Bool.and_eq_true] at hc
      exact iff_of_true rfl ⟨pt, hmem, of_decide_eq_true hc.1.1, hc.1.2,
        of_decide_eq_true hc.2⟩
    · rw [if_neg hB]
      refine iff_of_false (by simp) ?_
      rintro ⟨pt, hmem, hc1, hc2, hc3⟩
      refine hB (List.any_eq_true.mpr ⟨pt, hmem, ?_⟩)
      rw [Bool.and_eq_true, Bool.and_eq_true]
      exact ⟨⟨decide_eq_true hc1, hc2⟩, decide_eq_true hc3⟩
  · intro df2 w2 cj2 i2 hi2 hts
    by_cases hc : cj2 < df2.cols.length
    · have hcol : (deltaGrid df2 w2).getD cj2 [] =
          firstWindowNone df2.index
            (deltaCol df2.index (df2.cols.getD cj2 []) w2) w2 := by
        unfold deltaGrid
        rw [getD_map_getD df2.cols _ cj2 [] [] hc]
      rw [hcol]
      unfold firstWindowNone
      have hdl : i2 < (deltaCol df2.index (df2.cols.getD cj2 []) w2).length := by
        unfold deltaCol
        rw [List.length_map, List.length_range]
        exact hi2
      rw [getD_mapIdx_getD _ _ i2 none none hdl]
      rw [if_pos hts]
    · have hlen : (deltaGrid df2 w2).length = df2.cols.length := by
        unfold deltaGrid
        rw [List.length_map]
      have hge : (deltaGrid df2 w2).length ≤ cj2 := by
        rw [hlen]; omega
      rw [List.getD_eq_default (deltaGrid df2 w2) [] hge]
      rfl

/-- Witness for the amended C5: on hourly data [9, 5, 3] with window 3600
and direction None, the flagged point (2, 0) marks row 1 (timestamp 3600)
failing. -/
theorem claim_C5_amended_witness :
    ((0 : Nat) <
        (⟨[0, 3600, 7200], ["a"], [[true, true, false]]⟩ : Grid).cols.length ∧
      (1 : Nat) <
        ((⟨[0, 3600, 7200], ["a"], [[true, true, false]]⟩ :
            Grid).cols.getD 0 []).length) ∧
    ((updateMask ⟨[0, 3600, 7200], ["a"], [[true, true, false]]⟩
        ⟨[0, 3600, 7200], ["a"], [[some 9, some 5, some 3]]⟩
        3600 .lower none).cols.getD 0 []).getD 1 true = false :=
  ⟨⟨by decide, by decide⟩,
    (claim_C5_amended ⟨[0, 3600, 7200], ["a"], [[true, true, false]]⟩
        ⟨[0, 3600, 7200], ["a"], [[some 9, some 5, some 3]]⟩
        3600 none 0 1 (by decide) (by decide)).1.mpr
      ⟨(2, 0), by decide, rfl, rfl, by decide⟩⟩

/-- C8: in the streaming framework the verdict recorded in the mask at row
position `t` is computed with no look-ahead: two working datasets of the
same length that agree on every row up to and including `t` receive exactly
the same mask row at `t`, whatever the user quality-control function, the
trailing window, and the rebase threshold do (rows are processed by a fold
over the ascending positions `ti, ti+1, ...`; later rows can never reach
back into an earlier mask row). -/
theorem claim_C8
    (qc : List (Option ℚ) → List (List (Option ℚ)) → List Bool)
    (idx : List Nat) (w : Nat) (rb : Option ℚ)
    (orig1 orig2 : List (List (Option ℚ))) (t : Nat)
    (hlen : orig1.length = orig2.length)
    (htake : orig1.take (t + 1) = orig2.take (t + 1)) :
    (runStream qc idx w rb orig1).mask.getD t [] =
      (runStream qc idx w rb orig2).mask.getD t [] := by
  have hminit : (orig1.map (fun row => row.map (fun _ => true))).take (t + 1) =
      (orig2.map (fun row => row.map (fun _ => true))).take (t + 1) := by
    rw [← List.map_take, ← List.map_take, htake]
  have hfold := streamFold_take_eq qc idx w rb t orig1 orig2 htake
    (List.range' ((streamTiOpt idx w).getD idx.length)
      (orig1.length - (streamTiOpt idx w).getD idx.length))
    ⟨orig1, orig1.map (fun row => row.map (fun _ => true))⟩
    ⟨orig2, orig2.map (fun row => row.map (fun _ => true))⟩
    htake hminit
  have h2 : runStream qc idx w rb orig2 =
      (List.range' ((streamTiOpt idx w).getD idx.length)
        (orig1.length - (streamTiOpt idx w).getD idx.length)).foldl
        (streamStep qc orig2 idx w rb)
        ⟨orig2, orig2.map (fun row => row.map (fun _ => true))⟩ := by
    rw [hlen]
    rfl
  rw [h2]
  exact getD_of_take_eq hfold.2 (Nat.lt_succ_self t) []

/-- Witness for C8: two 2-row datasets that differ only in the second row
yield the same mask row at position 0. -/
theorem claim_C8_witness :
    (([[some 1], [some 2]] : List (List (Option ℚ))).length =
        ([[some 1], [some 3]] : List (List (Option ℚ))).length ∧
      ([[some 1], [some 2]] : List (List (Option ℚ))).take 1 =
        ([[some 1], [some 3]] : List (List (Option ℚ))).take 1) ∧
    (runStream (fun pt _ => pt.map (fun v => v.isSome)) [0, 900] 900 none
        [[some 1], [some 2]]).mask.getD 0 [] =
      (runStream (fun pt _ => pt.map (fun v => v.isSome)) [0, 900] 900 none
        [[some 1], [some 3]]).mask.getD 0 [] :=
  ⟨⟨by decide, by decide⟩,
    claim_C8 (fun pt _ => pt.map (fun v => v.isSome)) [0, 900] 900 none
      [[some 1], [some 2]] [[some 1], [some 3]] 0 (by decide) (by decide)⟩

end Pecos
